import Mathlib

/-!
Verification of the FALocalRepo command-line core against its specification.

The definitions below are a shallow embedding of the relevant parts of
src/falocalrepo/console.py and src/falocalrepo/console/database.py.
Text is modelled as lists of characters (Python str) or lists of byte /
codepoint values where the source manipulates encodings.  Functions from
external libraries that the source only calls (falocalrepo_database,
wcwidth, psutil, json) are modelled from the specification and marked
with a doc comment starting with the words Modelled from the spec.
-/

namespace Fal

/-- The character with the given code point (helper to avoid escape-laden literals). -/
def ch (n : Nat) : Char := Char.ofNat n

/-- Characters treated as whitespace by Python str.strip. -/
def isPySpace (c : Char) : Bool :=
  c = ch 32 || c = ch 9 || c = ch 10 || c = ch 13 || c = ch 11 || c = ch 12

/-- Python str.strip: drop leading and trailing whitespace. -/
def pstrip (s : List Char) : List Char :=
  ((s.dropWhile isPySpace).reverse.dropWhile isPySpace).reverse

/-- The character =, on which key=value argument tokens are split. -/
def eqChar : Char := ch 61

/-- Python tok.split(som, 1) for the separator =: the part before the first =
and, when a = is present, the part after it (console.py line 80 and 88). -/
def splitEq1 : List Char → List Char × Option (List Char)
  | [] => ([], none)
  | c :: cs =>
    if c = eqChar then ([], some cs)
    else
      let r := splitEq1 cs
      (c :: r.1, r.2)

/-- Lookup in an insertion-ordered dictionary (Python dict read d.get). -/
def dget {α : Type} (d : List (List Char × α)) (k : List Char) : Option α :=
  (d.find? (fun kv => decide (kv.1 = k))).map (fun kv => kv.2)

/-- Write to an insertion-ordered dictionary (Python dict assignment):
an existing key keeps its position, a new key is appended. -/
def dset {α : Type} (d : List (List Char × α)) (k : List Char) (v : α) :
    List (List Char × α) :=
  if d.any (fun kv => decide (kv.1 = k)) then
    d.map (fun kv => if kv.1 = k then (k, v) else kv)
  else d ++ [(k, v)]

/-- One iteration of the accumulation loop of parameters_multi
(console.py lines 80-82): split the token at the first =, strip the name,
and append the value to the list already stored under that name.
A token without = makes the Python tuple unpacking fail, hence none. -/
def accumOne (d : List (List Char × List (List Char))) (tok : List Char) :
    Option (List (List Char × List (List Char))) :=
  match splitEq1 tok with
  | (_, none) => none
  | (p, some v) =>
    let p := pstrip p
    some (dset d p (((dget d p).getD []) ++ [v]))

/-- parameters_multi (console.py lines 78-84): accumulate key=value tokens
into a mapping from parameter name to the ordered list of its values. -/
def parameters_multi (args : List (List Char)) :
    Option (List (List Char × List (List Char))) :=
  args.foldlM accumOne []

/-- parameters (console.py lines 87-88): single-valued variant, later
occurrences of a name overwrite earlier ones; the name is not stripped. -/
def parameters (args : List (List Char)) :
    Option (List (List Char × List Char)) :=
  args.foldlM (fun d tok =>
    match splitEq1 tok with
    | (_, none) => none
    | (p, some v) => some (dset d p v)) []

/-- The values contributed to a given parameter name by a token list, in
command-line order: the reference description of what parameters_multi
accumulates under that name. -/
def valuesFor (name : List Char) (args : List (List Char)) : List (List Char) :=
  args.filterMap (fun tok =>
    match splitEq1 tok with
    | (p, some v) => if pstrip p = name then some v else none
    | (_, none) => none)

/-- Backend-neutral selector tree (the shape of the compiled predicate). -/
inductive Sel
  | matches (field : List Char) (value : List Char)
  | or (a b : Sel)
  | and (a b : Sel)
deriving DecidableEq

/-- Modelled from the spec: parameters_to_selector (falocalrepo.commands) is
not under src/.  Per the spec, the values accumulated under one parameter
name are combined with OR into one group. -/
def orGroup (field : List Char) : List (List Char) → Sel
  | [] => Sel.matches field []
  | v :: vs => vs.foldl (fun s w => Sel.or s (Sel.matches field w)) (Sel.matches field v)

/-- A selector built only from OR combinators and leaves (no AND inside). -/
def noAnd : Sel → Bool
  | Sel.matches _ _ => true
  | Sel.or a b => noAnd a && noAnd b
  | Sel.and _ _ => false

/-- The leaves of a selector, left to right. -/
def orLeaves : Sel → List Sel
  | Sel.matches f v => [Sel.matches f v]
  | Sel.or a b => orLeaves a ++ orLeaves b
  | Sel.and a b => orLeaves a ++ orLeaves b

/-- Combination of a previously stored value list with newly contributed
values, as performed by the accumulation loop. -/
def joinVals (o : Option (List (List Char))) (vs : List (List Char)) :
    Option (List (List Char)) :=
  if o = none ∧ vs = [] then none else some (o.getD [] ++ vs)

/-!
### Query compilation
The search function of src/falocalrepo/console/database.py (lines 202-210)
builds the arguments of the external compiler query_to_sql: the list of
substring-matched fields and the alias dictionary for the author and any
fields.  Those two computations are embedded from the source; the
per-term behaviour of query_to_sql itself is modelled from the spec.
-/

/-- Lowercase an ASCII character (column and field names are ASCII). -/
def lowerChar (c : Char) : Char :=
  if 65 ≤ c.toNat ∧ c.toNat ≤ 90 then ch (c.toNat + 32) else c

/-- Python str.lower on an ASCII name. -/
def lowerList (s : List Char) : List Char := s.map lowerChar

/-- The column names subtracted from the substring set by search
(console/database.py line 206): ID, AUTHOR and USERNAME. -/
def exact_columns : List (List Char) :=
  [("ID").toList, ("AUTHOR").toList, ("USERNAME").toList]

/-- The sentinel field name any. -/
def anyField : List Char := ("any").toList

/-- The author field name. -/
def authorField : List Char := ("author").toList

/-- The third argument search passes to query_to_sql (line 206): the
lowercased names of every column of the table plus any, minus ID, AUTHOR
and USERNAME.  These are the substring-matched fields. -/
def search_likes (cols : List (List Char)) : List (List Char) :=
  ((cols ++ [anyField]).filter (fun c => decide (c ∉ exact_columns))).map lowerList

/-- Left-hand side of a compiled comparison: a plain column, the
underscore-stripped author column (the alias built at line 207 with
replace), or the concatenation of all columns of the table (the alias
built at line 207 for the any field by joining the column names with ||). -/
inductive ColExpr
  | col (name : List Char)
  | authorNoUnderscore
  | concatAll (cols : List (List Char))
deriving DecidableEq

/-- The fourth argument search passes to query_to_sql (line 207): the
alias dictionary mapping author and any to column expressions. -/
def search_aliases (cols : List (List Char)) : List (List Char × ColExpr) :=
  [(authorField, ColExpr.authorNoUnderscore), (anyField, ColExpr.concatAll cols)]

/-- A single compiled comparison against one bound parameter value. -/
inductive Cmp
  | eq (lhs : ColExpr) (value : List Char)
  | like (lhs : ColExpr) (value : List Char)
deriving DecidableEq

/-- The percent wildcard. -/
def pctChar : Char := ch 37

/-- The underscore wildcard. -/
def usChar : Char := ch 95

/-- The start-of-field anchor. -/
def caretChar : Char := ch 94

/-- The end-of-field anchor. -/
def dollarChar : Char := ch 36

/-- Whether a pattern carries a wildcard metacharacter. -/
def hasWildcard (p : List Char) : Bool := p.contains pctChar || p.contains usChar

/-- Modelled from the spec: wrapping of a substring-matched pattern.  A
leading caret or a trailing dollar anchor is stripped and the anchored
side left closed; any side without an anchor is left open with percent. -/
def wrapLike (p : List Char) : List Char :=
  let anchoredStart := p.head? = some caretChar
  let p1 := if anchoredStart then p.tail else p
  let anchoredEnd := p1.getLast? = some dollarChar
  let p2 := if anchoredEnd then p1.dropLast else p1
  (if anchoredStart then [] else [pctChar]) ++ p2 ++ (if anchoredEnd then [] else [pctChar])

/-- Resolution of a field name through the alias dictionary. -/
def aliasLhs (aliases : List (List Char × ColExpr)) (field : List Char) : ColExpr :=
  ((aliases.find? (fun kv => decide (kv.1 = field))).map (fun kv => kv.2)).getD
    (ColExpr.col field)

/-- Modelled from the spec: query_to_sql (falocalrepo_database.database) is
not under src/.  Per the spec's compiler contract one field term resolves
its left-hand side through the alias dictionary, then compiles to a
substring pattern comparison when the field is in the substring list, to
an equality comparison when the field is exact and the pattern carries no
wildcard metacharacter, and to a pattern comparison when the pattern
itself carries wildcards (explicit wildcards override exact policy). -/
def queryToSqlTerm (likes : List (List Char)) (aliases : List (List Char × ColExpr))
    (field pattern : List Char) : Cmp :=
  let lhs := aliasLhs aliases field
  if field ∈ likes then Cmp.like lhs (wrapLike pattern)
  else if hasWildcard pattern then Cmp.like lhs pattern
  else Cmp.eq lhs pattern

/-- Compilation of one field term exactly as the search command sets it
up: the substring list and alias dictionary of lines 205-207 feed the
compiler. -/
def compileFieldTerm (cols : List (List Char)) (field pattern : List Char) : Cmp :=
  queryToSqlTerm (search_likes cols) (search_aliases cols) field pattern

/-- Boolean structure of a compiled predicate, used to state the claimed
shape of the expansion of an any term. -/
inductive Pred
  | cmp (c : Cmp)
  | or (a b : Pred)
deriving DecidableEq

/-- All comparisons of a predicate, left to right. -/
def predCmps : Pred → List Cmp
  | Pred.cmp c => [c]
  | Pred.or a b => predCmps a ++ predCmps b

/-- Modelled from the spec: the comparison the claimed any expansion would
emit for one column under that column's own policy. -/
def specPerColumn (pattern : List Char) (c : List Char) : Cmp :=
  if c ∈ exact_columns then
    (if hasWildcard pattern then Cmp.like (ColExpr.col (lowerList c)) pattern
     else Cmp.eq (ColExpr.col (lowerList c)) pattern)
  else Cmp.like (ColExpr.col (lowerList c)) (wrapLike pattern)

/-- Modelled from the spec: the claimed expansion of an any term, a
disjunction of one comparison per real column of the target table. -/
def specAnyDisjunction (cols : List (List Char)) (pattern : List Char) : Option Pred :=
  match cols with
  | [] => none
  | c :: cs =>
    some (cs.foldl (fun a c2 => Pred.or a (Pred.cmp (specPerColumn pattern c2)))
      (Pred.cmp (specPerColumn pattern c)))

/-- The columns of the users table (falocalrepo_database.tables). -/
def usersCols : List (List Char) :=
  [("USERNAME").toList, ("FOLDERS").toList, ("ACTIVE").toList, ("USERPAGE").toList]

/-- Columns in canonical form: a column whose lowercase name is id, author
or username is written exactly ID, AUTHOR or USERNAME (true of every
table of the database schema). -/
def canonicalCols (cols : List (List Char)) : Prop :=
  ∀ c ∈ cols,
    lowerList c ∈ [("id").toList, ("author").toList, ("username").toList] →
    c ∈ exact_columns

instance canonicalColsDecidable (cols : List (List Char)) :
    Decidable (canonicalCols cols) := by
  unfold canonicalCols
  infer_instance

/-!
### Command dispatcher
Shallow embedding of the old-style dispatcher of src/falocalrepo/console.py:
process scan, version gating, history write and the command/operation
routing.  Handlers that only delegate to external subsystems (network
download, server, file IO) are recorded as effects; handlers that mutate
the archive directly in the source (the remove loops) update the state. -/

/-- Digit value of a decimal digit character. -/
def digitVal (c : Char) : Nat := c.toNat - 48

/-- Decimal digits read most significant first. -/
def digitsToNat (ds : List Char) : Nat := ds.foldl (fun a c => a * 10 + digitVal c) 0

/-- The minus sign. -/
def minusChar : Char := ch 45

/-- Whether Python int() accepts the string (optional surrounding
whitespace, optional sign, at least one digit). -/
def pyIntOk (s : List Char) : Bool :=
  let t := pstrip s
  let t2 := if t.head? = some minusChar then t.tail else t
  decide (t2 ≠ []) && t2.all (fun c => c.isDigit)

/-- Python int() on a decimal string. -/
def pyInt (s : List Char) : Int :=
  let t := pstrip s
  if t.head? = some minusChar then -(digitsToNat t.tail : Int)
  else (digitsToNat t : Int)

/-- Archive contents touched by the embedded commands (one copy as seen
in memory, one as committed to disk). -/
structure DBMem where
  users : List String
  submissions : List Int
  journals : List Int
  history : List (Nat × String)
deriving DecidableEq

/-- The archive: schema version plus in-memory and committed state. -/
structure DB where
  version : String
  mem : DBMem
  disk : DBMem
deriving DecidableEq

/-- db.commit(): persist the in-memory state. -/
def commit (db : DB) : DB := { db with disk := db.mem }

/-- db.settings.add_history (external, modelled from the spec: appends a
(timestamp, command-line) entry to the persistent history log). -/
def addHistory (t : Nat) (cmd : String) (db : DB) : DB :=
  { db with mem := { db.mem with history := db.mem.history ++ [(t, cmd)] } }

/-- Replace the in-memory user list. -/
def setUsers (db : DB) (us : List String) : DB :=
  { db with mem := { db.mem with users := us } }

/-- Replace the in-memory submission list. -/
def setSubs (db : DB) (xs : List Int) : DB :=
  { db with mem := { db.mem with submissions := xs } }

/-- Replace the in-memory journal list. -/
def setJrns (db : DB) (xs : List Int) : DB :=
  { db with mem := { db.mem with journals := xs } }

/-- A live process as seen by the scan: its name, its command line and,
for stating the claims, the archive path it operates on.  The archive
path is never inspected by the code. -/
structure Proc where
  pname : String
  cmdline : List String
  archive : String
deriving DecidableEq

/-- Whether needle occurs as a contiguous substring of hay (Python in). -/
def containsSub : List Char → List Char → Bool
  | [], needle => decide (needle = [])
  | h :: t, needle => needle.isPrefixOf (h :: t) || containsSub t needle

/-- The path separator. -/
def slashChar : Char := ch 47

/-- Split a character list on a separator character. -/
def splitOnChar (sep : Char) : List Char → List (List Char)
  | [] => [[]]
  | c :: cs =>
    let r := splitOnChar sep cs
    if c = sep then [] :: r else (c :: r.headD []) :: r.tail

/-- The components of Path(cmd).parts that a program name could equal:
the non-empty pieces of the command string between slashes. -/
def pathParts (s : List Char) : List (List Char) :=
  (splitOnChar slashChar s).filter (fun x => decide (x ≠ []))

/-- Whether the scan counts a process (console.py line 55): a python
process whose command line names the given program in a path component. -/
def procMatches (process : String) (p : Proc) : Bool :=
  containsSub (lowerList p.pname.toList) (("python").toList)
    && p.cmdline.any (fun cmd => (pathParts cmd.toList).contains process.toList)

/-- Failure classifications raised by the embedded commands. -/
inductive Err
  | malformedCommand (msg : String)
  | unknownCommand (tokens : String)
  | multipleInstances (process : String)
  | versionMismatch (found expected : String)
  | unhandled
deriving DecidableEq

/-- Observable actions of the embedded commands, in order. -/
inductive Eff
  | warnVersion (found expected : String)
  | helpShown
  | versionShown (what : String)
  | updateRun
  | initDone
  | cookiesShown
  | cookiesWritten
  | filesFolderShown
  | filesFolderChanged (dest : String)
  | infoShown
  | historyShown
  | searchShown (table : String)
  | addRun (table : String)
  | serverStarted
  | mergeRun
  | copyRun
  | cleanRun
  | upgradeRun
  | downloadRun (op : String)
deriving DecidableEq

/-- Result of a command: final archive state, effects, optional failure. -/
abbrev Res := DB × List Eff × Option Err

/-- check_process (console.py lines 51-59): raise MultipleInstances when
more than one matching live process is found (the current process is
itself one of them). -/
def check_process (process : String) (procs : List Proc) : Option Err :=
  if 2 ≤ (procs.filter (procMatches process)).length then
    some (Err.multipleInstances process)
  else none

/-- check_database_version (console.py lines 62-67): on a version mismatch
print a warning reporting both versions together with a pointer to the
upgrade command (the warnVersion effect stands for those two printed
lines) and raise the version error when raise_for_error is set. -/
def check_database_version (expected : String) (db : DB) (raiseForError : Bool) :
    List Eff × Option Err :=
  if db.version = expected then ([], none)
  else ([Eff.warnVersion db.version expected],
    if raiseForError then some (Err.versionMismatch db.version expected) else none)

/-- A token of the shape name=value whose name is made of word characters
or dashes (the regex of parse_args, console.py line 96). -/
def isOptToken (s : List Char) : Bool :=
  match splitEq1 s with
  | (p, some _) =>
    decide (p ≠ []) && p.all (fun c => c.isAlphanum || c = usChar || c = minusChar)
  | (_, none) => false

/-- The two phases of parse_args (console.py lines 91-105): leading
matching tokens become options; a literal double dash or the first
non-matching token ends the scan and the remainder is positional. -/
def parseArgsSplit : List String → List String × List String
  | [] => ([], [])
  | a :: rest =>
    if isOptToken a.toList then
      let r := parseArgsSplit rest
      (a :: r.1, r.2)
    else if a = "--" then ([], rest)
    else ([], a :: rest)

/-- parse_args (console.py lines 91-105). -/
def parse_args (argsRaw : List String) :
    Option (List (List Char × List Char)) × List String :=
  let s := parseArgsSplit argsRaw
  (parameters (s.1.map (fun a => a.toList)), s.2)

/-- config_list (console.py lines 209-219): print cookies and folder. -/
def config_list (db : DB) : Res := (db, [Eff.cookiesShown, Eff.filesFolderShown], none)

/-- config_cookies (console.py lines 223-246); the external write_cookies
settings update is recorded as an effect. -/
def config_cookies (db : DB) (args : List String) : Res :=
  match args with
  | [] => (db, [Eff.cookiesShown], none)
  | [_, _] => (db, [Eff.cookiesWritten], none)
  | _ => (db, [], some (Err.malformedCommand "cookies needs two arguments"))

/-- config_files_folder (console.py lines 250-278); the external folder
move is recorded as an effect. -/
def config_files_folder (db : DB) (args : List String) : Res :=
  let pa := parse_args args
  match pa.2 with
  | [] => (db, [Eff.filesFolderShown], none)
  | [dest] => (db, [Eff.filesFolderChanged dest], none)
  | _ => (db, [], some (Err.malformedCommand "files-folder needs one argument"))

/-- The operation dispatch of config (console.py lines 302-310).  Note
line 310: the unknown operation arm only constructs UnknownCommand
without raising it, so the dispatcher returns normally having done
nothing. -/
def config_op (db : DB) (comm : String) (args : List String) : Res :=
  match comm with
  | "" | "list" => config_list db
  | "cookies" => config_cookies db args
  | "files-folder" => config_files_folder db args
  | _ => (db, [], none)

/-- config (console.py lines 282-310): version check then dispatch. -/
def config (expected : String) (db : DB) (comm : String) (args : List String) : Res :=
  match check_database_version expected db true with
  | (w, some e) => (db, w, some e)
  | (w, none) =>
    let r := config_op db comm args
    (r.1, w ++ r.2.1, r.2.2)

/-- download_users (console.py lines 314-341). -/
def download_users (db : DB) (args : List String) : Res :=
  match args with
  | [_, _] => (db, [Eff.downloadRun "users"], none)
  | _ => (db, [], some (Err.malformedCommand "users needs two arguments"))

/-- download_update (console.py lines 345-390): the stop option is
converted with int, which fails unhandled on a malformed number. -/
def download_update (db : DB) (args : List String) : Res :=
  let pa := parse_args args
  let stopOk := match pa.1 with
    | none => false
    | some opts =>
      match dget opts (("stop").toList) with
      | none => true
      | some v => pyIntOk v
  if stopOk then (db, [Eff.downloadRun "update"], none)
  else (db, [], some Err.unhandled)

/-- download_submissions (console.py lines 394-414). -/
def download_submissions (db : DB) (args : List String) : Res :=
  if args = [] then (db, [], some (Err.malformedCommand "submissions needs at least one argument"))
  else (db, [Eff.downloadRun "submissions"], none)

/-- download_journals (console.py lines 418-438). -/
def download_journals (db : DB) (args : List String) : Res :=
  if args = [] then (db, [], some (Err.malformedCommand "journals needs at least one argument"))
  else (db, [Eff.downloadRun "journals"], none)

/-- The operation dispatch of download (console.py lines 468-478). -/
def download_op (db : DB) (comm : String) (args : List String) : Res :=
  match comm with
  | "users" => download_users db args
  | "update" => download_update db args
  | "submissions" => download_submissions db args
  | "journals" => download_journals db args
  | _ => (db, [], some (Err.unknownCommand ("download " ++ comm)))

/-- download (console.py lines 442-478): version check, then the process
scan, then the operation dispatch. -/
def download (expected : String) (procs : List Proc) (db : DB)
    (comm : String) (args : List String) : Res :=
  match check_database_version expected db true with
  | (w, some e) => (db, w, some e)
  | (w, none) =>
    match check_process "falocalrepo" procs with
    | some e => (db, w, some e)
    | none =>
      let r := download_op db comm args
      (r.1, w ++ r.2.1, r.2.2)

/-- database_info (console.py lines 482-497): read-only statistics. -/
def database_info (db : DB) : Res := (db, [Eff.infoShown], none)

/-- database_history (console.py lines 501-511): read-only listing. -/
def database_history (db : DB) : Res := (db, [Eff.historyShown], none)

/-- database_search (console.py lines 515-545): accumulate the search
parameters with parameters_multi and delegate to the external search. -/
def database_search (db : DB) (table : String) (args : List String) : Res :=
  match parameters_multi (args.map (fun a => a.toList)) with
  | none => (db, [], some Err.unhandled)
  | some _ => (db, [Eff.searchShown table], none)

/-- database_remove_users (console.py lines 703-718): delete each cleaned
username, committing after each deletion.  The external clean_username is
modelled as lowercasing; its exact normalisation is irrelevant here. -/
def database_remove_users (db : DB) (args : List String) : Res :=
  args.foldl (fun r u =>
    let cleaned := String.mk (lowerList u.toList)
    (commit (setUsers r.1 (r.1.mem.users.filter (fun x => decide (x ≠ cleaned)))),
     r.2.1, r.2.2)) (db, [], none)

/-- database_remove_submissions (console.py lines 722-737): delete each id
(converted with int, which aborts the loop unhandled on a malformed
number), committing after each deletion. -/
def database_remove_submissions (db : DB) (args : List String) : Res :=
  args.foldl (fun r s =>
    match r.2.2 with
    | some _ => r
    | none =>
      if pyIntOk s.toList then
        (commit (setSubs r.1 (r.1.mem.submissions.filter (fun x => decide (x ≠ pyInt s.toList)))),
         r.2.1, none)
      else (r.1, r.2.1, some Err.unhandled)) (db, [], none)

/-- The deletion loop of database_remove_journals (console.py lines
753-755): delete each id, aborting unhandled on a malformed number. -/
def removeJrnsLoop (db : DB) (args : List String) : Res :=
  args.foldl (fun r s =>
    match r.2.2 with
    | some _ => r
    | none =>
      if pyIntOk s.toList then
        (setJrns r.1 (r.1.mem.journals.filter (fun x => decide (x ≠ pyInt s.toList))),
         r.2.1, none)
      else (r.1, r.2.1, some Err.unhandled)) (db, [], none)

/-- database_remove_journals (console.py lines 741-756): the deletion
loop, then a single commit (skipped when the loop aborts). -/
def database_remove_journals (db : DB) (args : List String) : Res :=
  match (removeJrnsLoop db args).2.2 with
  | none => (commit (removeJrnsLoop db args).1, (removeJrnsLoop db args).2.1, none)
  | some e => ((removeJrnsLoop db args).1, (removeJrnsLoop db args).2.1, some e)

/-- database_merge_copy (console.py lines 798-830): at least the database
path argument is required; the selected entries are transferred by the
external merge/copy and the transaction committed. -/
def database_merge_copy (db : DB) (merge : Bool) (args : List String) : Res :=
  match args with
  | [] => (db, [], some (Err.malformedCommand "copy needs at least a database argument"))
  | _ :: rest =>
    match parameters_multi (rest.map (fun a => a.toList)) with
    | none => (db, [], some Err.unhandled)
    | some _ => (commit db, [if merge then Eff.mergeRun else Eff.copyRun], none)

/-- The database operations that tolerate a version mismatch
(console.py line 962). -/
def versionExempt (comm : String) : Bool :=
  comm = "" || comm = "info" || comm = "upgrade"

/-- The operation dispatch of database (console.py lines 964-998).
db.upgrade() is external and modelled from the spec as migrating the
archive to the expected version. -/
def database_op (expected : String) (db : DB) (comm : String) (args : List String) : Res :=
  match comm with
  | "" | "info" => database_info db
  | "history" => database_history db
  | "search-users" => database_search db "users" args
  | "search-submissions" => database_search db "submissions" args
  | "search-journals" => database_search db "journals" args
  | "add-user" => (db, [Eff.addRun "users"], none)
  | "add-submission" => (db, [Eff.addRun "submissions"], none)
  | "add-journal" => (db, [Eff.addRun "journals"], none)
  | "remove-users" => database_remove_users db args
  | "remove-submissions" => database_remove_submissions db args
  | "remove-journals" => database_remove_journals db args
  | "server" => (db, [Eff.serverStarted], none)
  | "merge" => database_merge_copy db true args
  | "copy" => database_merge_copy db false args
  | "clean" => (db, [Eff.cleanRun], none)
  | "upgrade" => ({ db with version := expected }, [Eff.upgradeRun], none)
  | _ => (db, [], some (Err.unknownCommand ("database " ++ comm)))

/-- database (console.py lines 915-998): version gate with the exempt
operations, then the operation dispatch. -/
def database (expected : String) (db : DB) (comm : String) (args : List String) : Res :=
  match check_database_version expected db (!versionExempt comm) with
  | (w, some e) => (db, w, some e)
  | (w, none) =>
    let r := database_op expected db comm args
    (r.1, w ++ r.2.1, r.2.2)

/-- init (console.py lines 193-205). -/
def init (expected : String) (db : DB) : Res :=
  match check_database_version expected db true with
  | (w, some e) => (db, w, some e)
  | (w, none) => (db, w ++ [Eff.initDone], none)

/-- The (command, operation) pairs known to help_ (console.py lines
127-187); help, update and init accept any operation. -/
def help_known (comm op : String) : Bool :=
  (comm = "" && op = "")
  || comm = "help" || comm = "update" || comm = "init"
  || (comm = "config" && (op = "" || op = "list" || op = "cookies" || op = "files-folder"))
  || (comm = "download"
      && (op = "" || op = "users" || op = "update" || op = "submissions" || op = "journals"))
  || (comm = "database"
      && (op = "" || op = "info" || op = "history"
          || op = "search-users" || op = "search-submissions" || op = "search-journals"
          || op = "add-submission" || op = "add-journal" || op = "add-user"
          || op = "remove-users" || op = "remove-submissions" || op = "remove-journals"
          || op = "server" || op = "merge" || op = "copy" || op = "clean" || op = "upgrade"))

/-- Python str.strip on a string value. -/
def pstripS (s : String) : String := String.mk (pstrip s.toList)

/-- help_ (console.py lines 113-189): an unknown pair raises
UnknownCommand with the stripped offending tokens. -/
def help_ (comm op : String) : Option Err :=
  if help_known comm op then none
  else some (Err.unknownCommand (pstripS (comm ++ " " ++ op)))

/-- The command line recorded in the history (console.py line 1105). -/
def historyLine (comm : String) (args : List String) : String :=
  pstripS (comm ++ " " ++ String.intercalate " " args)

/-- console (console.py lines 1041-1119): top-level dispatch; for the four
archive commands the history entry is appended and committed before the
handler runs and a final commit happens on every exit path (the finally
block).  The debug flag, path resolution and connection check touch no
state modelled here. -/
def console (expected : String) (procs : List Proc) (t : Nat)
    (comm : String) (args : List String) (db : DB) : Res :=
  match comm with
  | "" | "-h" | "--help" => (db, [Eff.helpShown], none)
  | "help" =>
    match help_ (args.getD 0 "") (args.getD 1 "") with
    | some e => (db, [], some e)
    | none => (db, [Eff.helpShown], none)
  | "-v" | "--version" => (db, [Eff.versionShown "program"], none)
  | "-d" | "--database" => (db, [Eff.versionShown "database"], none)
  | "-s" | "--server" => (db, [Eff.versionShown "server"], none)
  | "update" => (db, [Eff.updateRun], none)
  | "init" | "config" | "download" | "database" =>
    let db1 := commit (addHistory t (historyLine comm args) db)
    let r : Res :=
      match comm with
      | "init" => init expected db1
      | "config" => config expected db1 (args.getD 0 "") (args.drop 1)
      | "download" => download expected procs db1 (args.getD 0 "") (args.drop 1)
      | _ => database expected db1 (args.getD 0 "") (args.drop 1)
    (commit r.1, r.2.1, r.2.2)
  | _ => (db, [], some (Err.unknownCommand comm))

/-- The history-presence invariant: an entry recorded both in memory and
in the committed state. -/
def HistPres (e : Nat × String) (db : DB) : Prop :=
  e ∈ db.mem.history ∧ e ∈ db.disk.history

/-- An empty archive content. -/
def memEmpty : DBMem := { users := [], submissions := [], journals := [], history := [] }

/-- An archive holding one submission, in sync with its disk state. -/
def dbOneSub : DB :=
  { version := "4.0.0",
    mem := { users := [], submissions := [12], journals := [], history := [] },
    disk := { users := [], submissions := [12], journals := [], history := [] } }

/-- A live process running the program (name and command line are counted
by the scan), operating on the archive path of the scenario. -/
def procA : Proc :=
  { pname := "Python3", cmdline := ["/usr/bin/falocalrepo"], archive := "/data/FA.db" }

/-- A second live process running the program on the same archive path. -/
def procB : Proc :=
  { pname := "python", cmdline := ["/usr/local/bin/falocalrepo", "database"],
    archive := "/data/FA.db" }

/-- An archive whose schema version is older than the expected one. -/
def dbOldVersion : DB := { version := "3.0.0", mem := memEmpty, disk := memEmpty }

/-!
### Table rendering: value formatting and fitting
(src/falocalrepo/console/database.py lines 123-176).  Text is modelled as
lists of code points, encodings as lists of byte values. -/

/-- Decimal digits of a natural number, least significant first; the fuel
is the number itself, always enough since a number has no more decimal
digits than its own value. -/
def digsRevLoop : Nat → Nat → List Nat
  | 0, _ => []
  | fuel + 1, n => if n = 0 then [] else n % 10 :: digsRevLoop fuel (n / 10)

/-- Decimal digit characters of a natural number (Python str). -/
def natRepr (n : Nat) : List Char :=
  if n = 0 then [ch 48] else (digsRevLoop n n).reverse.map (fun d => ch (48 + d))

/-- Decimal representation of an integer (Python str). -/
def intRepr (n : Int) : List Char :=
  if n < 0 then minusChar :: natRepr n.natAbs else natRepr n.natAbs

/-- UTF-8 encoding of one code point; errors equal to replace turns values
no encoding accepts (surrogates, out of range) into a question mark. -/
def utf8EncodeChar (c : Nat) : List Nat :=
  if c < 0x80 then [c]
  else if c < 0x800 then [0xC0 + c / 0x40, 0x80 + c % 0x40]
  else if 0xD800 ≤ c ∧ c < 0xE000 then [0x3F]
  else if c < 0x10000 then [0xE0 + c / 0x1000, 0x80 + c / 0x40 % 0x40, 0x80 + c % 0x40]
  else if c < 0x110000 then
    [0xF0 + c / 0x40000, 0x80 + c / 0x1000 % 0x40, 0x80 + c / 0x40 % 0x40, 0x80 + c % 0x40]
  else [0x3F]

/-- UTF-8 encoding of a code point list (Python str.encode). -/
def utf8Encode (s : List Nat) : List Nat := s.flatMap utf8EncodeChar

/-- Whether a byte is a UTF-8 continuation byte. -/
def isCont (b : Nat) : Bool := decide (0x80 ≤ b ∧ b < 0xC0)

/-- One step of UTF-8 decoding with the replacement policy of Python
bytes.decode(errors=replace): consume a maximal valid subsequence,
producing the decoded code point or the replacement character 0xFFFD;
at least one byte is always consumed. -/
def u8step : List Nat → { kc : Nat × Nat // 1 ≤ kc.1 }
  | [] => ⟨(1, 0xFFFD), by omega⟩
  | b1 :: rest =>
    if b1 < 0x80 then ⟨(1, b1), by omega⟩
    else if b1 < 0xC2 then ⟨(1, 0xFFFD), by omega⟩
    else if b1 < 0xE0 then
      match rest with
      | b2 :: _ =>
        if isCont b2 then ⟨(2, (b1 - 0xC0) * 0x40 + (b2 - 0x80)), by omega⟩
        else ⟨(1, 0xFFFD), by omega⟩
      | [] => ⟨(1, 0xFFFD), by omega⟩
    else if b1 < 0xF0 then
      match rest with
      | b2 :: rest2 =>
        if isCont b2 && (decide (0xA0 ≤ b2) || decide (b1 ≠ 0xE0))
            && (decide (b2 < 0xA0) || decide (b1 ≠ 0xED)) then
          match rest2 with
          | b3 :: _ =>
            if isCont b3 then
              ⟨(3, (b1 - 0xE0) * 0x1000 + (b2 - 0x80) * 0x40 + (b3 - 0x80)), by omega⟩
            else ⟨(2, 0xFFFD), by omega⟩
          | [] => ⟨(2, 0xFFFD), by omega⟩
        else ⟨(1, 0xFFFD), by omega⟩
      | [] => ⟨(1, 0xFFFD), by omega⟩
    else if b1 < 0xF5 then
      match rest with
      | b2 :: rest2 =>
        if isCont b2 && (decide (0x90 ≤ b2) || decide (b1 ≠ 0xF0))
            && (decide (b2 < 0x90) || decide (b1 ≠ 0xF4)) then
          match rest2 with
          | b3 :: rest3 =>
            if isCont b3 then
              match rest3 with
              | b4 :: _ =>
                if isCont b4 then
                  ⟨(4, (b1 - 0xF0) * 0x40000 + (b2 - 0x80) * 0x1000
                       + (b3 - 0x80) * 0x40 + (b4 - 0x80)), by omega⟩
                else ⟨(3, 0xFFFD), by omega⟩
              | [] => ⟨(3, 0xFFFD), by omega⟩
            else ⟨(2, 0xFFFD), by omega⟩
          | [] => ⟨(2, 0xFFFD), by omega⟩
        else ⟨(1, 0xFFFD), by omega⟩
      | [] => ⟨(1, 0xFFFD), by omega⟩
    else ⟨(1, 0xFFFD), by omega⟩

/-- UTF-8 decoding loop; each step consumes at least one byte, so a fuel
equal to the byte count is always enough. -/
def decodeLoop : Nat → List Nat → List Nat
  | 0, _ => []
  | _, [] => []
  | fuel + 1, b :: rest =>
    (u8step (b :: rest)).1.2 :: decodeLoop fuel ((b :: rest).drop (u8step (b :: rest)).1.1)

/-- Python bytes.decode(errors=replace). -/
def decodeReplace (bs : List Nat) : List Nat := decodeLoop bs.length bs

/-- fit_string (console/database.py lines 127-128): with a nonzero width
the value is encoded with replacement, truncated to the first width
bytes, and decoded with replacement; width 0 (falsy, as is None) returns
the value unchanged. -/
def fit_string (value : List Nat) (width : Nat) : List Nat :=
  if width = 0 then value else decodeReplace ((utf8Encode value).take width)

/-- A value of a rendered record: scalar text, a number, or a list. -/
inductive TValue
  | s (text : List Nat)
  | i (n : Int)
  | l (items : List (List Nat))
deriving DecidableEq

/-- format_value (console/database.py lines 123-124): list values are
joined with spaces, scalars are converted with str. -/
def format_value (v : TValue) : List Nat :=
  match v with
  | TValue.s t => t
  | TValue.i n => (intRepr n).map Char.toNat
  | TValue.l items => List.intercalate [0x20] items

/-- The per-value fitting of the styled branch of print_table
(console/database.py line 155): slice to the first width characters and
pad with spaces to the width (width 0 leaves the value whole). -/
def color_column_fit (s : List Nat) (width : Nat) : List Nat :=
  if width = 0 then s
  else (s.take width) ++ List.replicate (width - (s.take width).length) 0x20

/-- Modelled from the spec: the display cell width of a code point per
wcwidth; characters of the wide East-Asian blocks occupy two terminal
cells, all others one. -/
def dispWidth (c : Nat) : Nat :=
  if (0x1100 ≤ c ∧ c ≤ 0x115F) ∨ (0x2E80 ≤ c ∧ c ≤ 0xA4CF) ∨ (0xAC00 ≤ c ∧ c ≤ 0xD7A3)
      ∨ (0xF900 ≤ c ∧ c ≤ 0xFAFF) ∨ (0xFF00 ≤ c ∧ c ≤ 0xFF60)
      ∨ (0xFFE0 ≤ c ∧ c ≤ 0xFFE6) ∨ (0x20000 ≤ c ∧ c ≤ 0x3FFFD) then 2 else 1

/-- Modelled from the spec: display-width-aware fitting, the longest
prefix of the value whose total cell width fits the column width. -/
def specFitDisplay : List Nat → Nat → List Nat
  | [], _ => []
  | c :: cs, w => if dispWidth c ≤ w then c :: specFitDisplay cs (w - dispWidth c) else []

/-- A pure-ASCII code point list. -/
def allAscii (s : List Nat) : Bool := s.all (fun c => decide (c < 0x80))

/-!
### JSON rendering
print_json (src/falocalrepo/console/database.py lines 189-199) and a model
of json.dumps for record objects, plus a JSON parser used to state the
round-trip property.  Text is modelled as lists of characters. -/

/-- JSON value of a record field: text, an integer, or a list of texts. -/
inductive JValue
  | s (text : List Char)
  | i (n : Int)
  | l (items : List (List Char))
deriving DecidableEq

/-- A record: the ordered column-to-value mapping of one database row. -/
abbrev Record := List (List Char × JValue)

/-- The double quote. -/
def quoteChar : Char := ch 34

/-- The backslash. -/
def bsChar : Char := ch 92

/-- The comma separator. -/
def commaChar : Char := ch 44

/-- The colon separator. -/
def colonChar : Char := ch 58

/-- The opening square bracket. -/
def lbraChar : Char := ch 91

/-- The closing square bracket. -/
def rbraChar : Char := ch 93

/-- The opening curly brace. -/
def lcurChar : Char := ch 123

/-- The closing curly brace. -/
def rcurChar : Char := ch 125

/-- A lowercase hexadecimal digit character. -/
def hexDig (n : Nat) : Char := if n < 10 then ch (48 + n) else ch (87 + n)

/-- Four hexadecimal digit characters of a value below 0x10000. -/
def toHex4 (v : Nat) : List Char :=
  [hexDig (v / 4096 % 16), hexDig (v / 256 % 16), hexDig (v / 16 % 16), hexDig (v % 16)]

/-- Modelled from the spec: one character escaped as json.dumps does with
its default ascii-only output: quote and backslash get a backslash, the
five short control escapes are used, all other control and non-ASCII
characters become a u-escape, astral characters a surrogate pair. -/
def escChar (c : Char) : List Char :=
  if c = quoteChar then [bsChar, quoteChar]
  else if c = bsChar then [bsChar, bsChar]
  else if c = ch 8 then [bsChar, ch 98]
  else if c = ch 9 then [bsChar, ch 116]
  else if c = ch 10 then [bsChar, ch 110]
  else if c = ch 12 then [bsChar, ch 102]
  else if c = ch 13 then [bsChar, ch 114]
  else if 0x20 ≤ c.toNat ∧ c.toNat ≤ 0x7E then [c]
  else if c.toNat < 0x10000 then bsChar :: ch 117 :: toHex4 c.toNat
  else
    bsChar :: ch 117 :: toHex4 (0xD800 + (c.toNat - 0x10000) / 0x400)
      ++ bsChar :: ch 117 :: toHex4 (0xDC00 + (c.toNat - 0x10000) % 0x400)

/-- The escaped body of a JSON string. -/
def escStr (s : List Char) : List Char := s.flatMap escChar

/-- A JSON string literal. -/
def dumpStr (s : List Char) : List Char := quoteChar :: escStr s ++ [quoteChar]

/-- Python join of pieces with a separator. -/
def joinWith (sep : List Char) : List (List Char) → List Char
  | [] => []
  | x :: rest => x ++ rest.flatMap (fun y => sep ++ y)

/-- Modelled from the spec: json.dumps of one scalar or list value. -/
def dumpVal : JValue → List Char
  | JValue.s t => dumpStr t
  | JValue.i n => intRepr n
  | JValue.l items => lbraChar :: joinWith [commaChar] (items.map dumpStr) ++ [rbraChar]

/-- One key and value pair of a dumped object. -/
def pairStr (kv : List Char × JValue) : List Char :=
  dumpStr kv.1 ++ colonChar :: dumpVal kv.2

/-- Modelled from the spec: json.dumps of one record with the compact
separator pair used by print_json. -/
def dumpsRec (r : Record) : List Char :=
  lcurChar :: joinWith [commaChar] (r.map pairStr) ++ [rcurChar]

/-- print_json (console/database.py lines 189-199): write the opening
bracket, the first record when it is truthy (the walrus test consumes a
falsy first record without writing it), every remaining record preceded
by a comma, and the closing bracket; the returned count matches the
incremented total. -/
def print_json (rs : List Record) : List Char × Nat :=
  match rs with
  | [] => ([lbraChar, rbraChar], 0)
  | r :: rest =>
    let tailOut := rest.flatMap (fun e => commaChar :: dumpsRec e)
    if r = ([] : Record) then
      (lbraChar :: tailOut ++ [rbraChar], rest.length)
    else
      (lbraChar :: dumpsRec r ++ tailOut ++ [rbraChar], rest.length + 1)

/-- The json output branch of database_search (console/database.py line
427): print_json receives neither the header list nor the widths. -/
def search_output_json (headers : List (List Char × Nat)) (rs : List Record) :
    List Char × Nat :=
  print_json rs

/-- Value of a hexadecimal digit character. -/
def hexVal (c : Char) : Option Nat :=
  if 48 ≤ c.toNat ∧ c.toNat ≤ 57 then some (c.toNat - 48)
  else if 97 ≤ c.toNat ∧ c.toNat ≤ 102 then some (c.toNat - 87)
  else if 65 ≤ c.toNat ∧ c.toNat ≤ 70 then some (c.toNat - 55)
  else none

/-- Unescaping of a single-character JSON escape. -/
def unescChar (e : Char) : Option Char :=
  if e = quoteChar then some quoteChar
  else if e = bsChar then some bsChar
  else if e = slashChar then some slashChar
  else if e = ch 98 then some (ch 8)
  else if e = ch 116 then some (ch 9)
  else if e = ch 110 then some (ch 10)
  else if e = ch 102 then some (ch 12)
  else if e = ch 114 then some (ch 13)
  else none

/-- Decoder for one escape sequence after the backslash: the decoded
character and the rest of the input (not recursive). -/
def parseEscSeq : List Char → Option (Char × List Char)
  | [] => none
  | e :: rest2 =>
    if e = ch 117 then
      match rest2 with
      | a :: b :: c2 :: d :: rest3 =>
        match hexVal a, hexVal b, hexVal c2, hexVal d with
        | some x, some y, some z, some w =>
          let v := ((x * 16 + y) * 16 + z) * 16 + w
          if v < 0xD800 ∨ 0xE000 ≤ v then some (Char.ofNat v, rest3)
          else if v < 0xDC00 then
            match rest3 with
            | b2 :: u2 :: a2 :: b3 :: c3 :: d2 :: rest4 =>
              if b2 = bsChar ∧ u2 = ch 117 then
                match hexVal a2, hexVal b3, hexVal c3, hexVal d2 with
                | some x2, some y2, some z2, some w2 =>
                  let v2 := ((x2 * 16 + y2) * 16 + z2) * 16 + w2
                  if 0xDC00 ≤ v2 ∧ v2 < 0xE000 then
                    some (Char.ofNat (0x10000 + (v - 0xD800) * 0x400 + (v2 - 0xDC00)), rest4)
                  else none
                | _, _, _, _ => none
              else none
            | _ => none
          else none
        | _, _, _, _ => none
      | _ => none
    else
      match unescChar e with
      | some u => some (u, rest2)
      | none => none

/-- Parser loop for the body of a JSON string up to the closing quote;
each decoded character consumes at least one input character, so a fuel
above the input length is always enough. -/
def parseStrBodyF : Nat → List Char → Option (List Char × List Char)
  | _, [] => none
  | 0, _ :: _ => none
  | fuel + 1, c :: rest =>
    if c = quoteChar then some ([], rest)
    else if c = bsChar then
      match parseEscSeq rest with
      | some (u, rest2) =>
        match parseStrBodyF fuel rest2 with
        | some (s, r) => some (u :: s, r)
        | none => none
      | none => none
    else
      match parseStrBodyF fuel rest with
      | some (s, r) => some (c :: s, r)
      | none => none

/-- Parser for the body of a JSON string up to the closing quote. -/
def parseStrBody (s : List Char) : Option (List Char × List Char) :=
  parseStrBodyF (s.length + 1) s

/-- Parser for a JSON string literal. -/
def parseQuotedStr : List Char → Option (List Char × List Char)
  | c :: rest => if c = quoteChar then parseStrBody rest else none
  | [] => none

/-- A decimal digit character. -/
def isDigitChar (c : Char) : Bool := decide (48 ≤ c.toNat ∧ c.toNat ≤ 57)

/-- The longest digit prefix and the rest. -/
def takeDigits : List Char → List Char × List Char
  | [] => ([], [])
  | c :: rest =>
    if isDigitChar c then
      let r := takeDigits rest
      (c :: r.1, r.2)
    else ([], c :: rest)

/-- Value of a most-significant-first digit string. -/
def digitsVal (ds : List Char) : Nat := ds.foldl (fun a c => a * 10 + (c.toNat - 48)) 0

/-- Parser for a JSON integer. -/
def parseIntTok (s : List Char) : Option (Int × List Char) :=
  match s with
  | c :: rest =>
    if c = minusChar then
      let r := takeDigits rest
      if r.1 = [] then none else some (-(digitsVal r.1 : Int), r.2)
    else
      let r := takeDigits s
      if r.1 = [] then none else some ((digitsVal r.1 : Int), r.2)
  | [] => none

/-- Parser for the items of a non-empty JSON array of strings. -/
def parseStrItemsNE : Nat → List Char → Option (List (List Char) × List Char)
  | 0, _ => none
  | fuel + 1, s =>
    match parseQuotedStr s with
    | none => none
    | some (x, s1) =>
      match s1 with
      | c :: s2 =>
        if c = commaChar then
          match parseStrItemsNE fuel s2 with
          | none => none
          | some (xs, s3) => some (x :: xs, s3)
        else if c = rbraChar then some ([x], s2)
        else none
      | [] => none

/-- Parser for the items of a JSON array of strings, called after the
opening bracket. -/
def parseStrItems (fuel : Nat) (s : List Char) : Option (List (List Char) × List Char) :=
  match s with
  | c :: _ =>
    if c = rbraChar then some ([], s.tail)
    else parseStrItemsNE fuel s
  | [] => none

/-- Parser for one JSON value (string, integer, or array of strings). -/
def parseVal (fuel : Nat) (s : List Char) : Option (JValue × List Char) :=
  match s with
  | c :: rest =>
    if c = quoteChar then
      match parseStrBody rest with
      | none => none
      | some (t, r) => some (JValue.s t, r)
    else if c = lbraChar then
      match parseStrItems fuel rest with
      | none => none
      | some (items, r) => some (JValue.l items, r)
    else
      match parseIntTok (c :: rest) with
      | none => none
      | some (n, r) => some (JValue.i n, r)
  | [] => none

/-- Parser for the pairs of a non-empty JSON object. -/
def parsePairsNE : Nat → List Char → Option (Record × List Char)
  | 0, _ => none
  | fuel + 1, s =>
    match parseQuotedStr s with
    | none => none
    | some (k, s1) =>
      match s1 with
      | c :: s2 =>
        if c = colonChar then
          match parseVal fuel s2 with
          | none => none
          | some (v, s3) =>
            match s3 with
            | c2 :: s4 =>
              if c2 = commaChar then
                match parsePairsNE fuel s4 with
                | none => none
                | some (r, s5) => some ((k, v) :: r, s5)
              else if c2 = rcurChar then some ([(k, v)], s4)
              else none
            | [] => none
        else none
      | [] => none

/-- Parser for one JSON object as a record. -/
def parseRecord (fuel : Nat) (s : List Char) : Option (Record × List Char) :=
  match s with
  | c :: rest =>
    if c = lcurChar then
      match rest with
      | c2 :: rest2 =>
        if c2 = rcurChar then some (([] : Record), rest2) else parsePairsNE fuel rest
      | [] => none
    else none
  | [] => none

/-- Parser for the records of a non-empty JSON array. -/
def parseRecsNE : Nat → List Char → Option (List Record × List Char)
  | 0, _ => none
  | fuel + 1, s =>
    match parseRecord fuel s with
    | none => none
    | some (r, s1) =>
      match s1 with
      | c :: s2 =>
        if c = commaChar then
          match parseRecsNE fuel s2 with
          | none => none
          | some (rs, s3) => some (r :: rs, s3)
        else if c = rbraChar then some ([r], s2)
        else none
      | [] => none

/-- Parser for a full JSON array of records, requiring that the whole
input is consumed. -/
def parseJson (s : List Char) : Option (List Record) :=
  match s with
  | c :: rest =>
    if c = lbraChar then
      match rest with
      | c2 :: rest2 =>
        if c2 = rbraChar then (if rest2 = [] then some [] else none)
        else
          match parseRecsNE s.length rest with
          | some (rs, []) => some rs
          | _ => none
      | [] => none
    else none
  | [] => none

/-- Fuel needed by parseVal for a value. -/
def valNeed : JValue → Nat
  | JValue.l items => items.length + 1
  | _ => 1

/-- Fuel needed by parsePairsNE for the pairs of a record. -/
def pairsNeed : Record → Nat
  | [] => 1
  | kv :: rest => 1 + valNeed kv.2 + pairsNeed rest

/-- Fuel needed by parseRecsNE for a record list. -/
def recsNeed : List Record → Nat
  | [] => 1
  | r :: rest => 1 + pairsNeed r + recsNeed rest

/-- A rest of input that does not begin with a decimal digit, so that an
integer token before it ends where it should. -/
def headNotDigit (rest : List Char) : Prop :=
  ∀ c, rest.head? = some c → isDigitChar c = false

/-- The value of a least-significant-first digit list (proof helper for the
decimal representation). -/
def valRev (ds : List Nat) : Nat := ds.foldr (fun d a => a * 10 + d) 0

/-! ## Theorems -/

theorem dget_cons {α : Type} (hd : List Char × α) (tl : List (List Char × α)) (k : List Char) :
    dget (hd :: tl) k = if hd.1 = k then some hd.2 else dget tl k := by
  by_cases h : hd.1 = k <;> simp [dget, List.find?, h]

theorem dget_map_self {α : Type} (d : List (List Char × α)) (k : List Char) (v : α)
    (hmem : ∃ kv ∈ d, kv.1 = k) :
    dget (d.map (fun kv => if kv.1 = k then (k, v) else kv)) k = some v := by
  induction d with
  | nil =>
    rcases hmem with ⟨kv, hkv, _⟩
    exact absurd hkv (List.not_mem_nil kv)
  | cons hd tl ih =>
    by_cases h : hd.1 = k
    · simp [dget_cons, h]
    · rcases hmem with ⟨kv, hkv, hk⟩
      rcases List.mem_cons.mp hkv with rfl | hkv'
      · exact absurd hk h
      · simpa [dget_cons, h] using ih ⟨kv, hkv', hk⟩

theorem dget_map_ne {α : Type} (d : List (List Char × α)) (k k' : List Char) (v : α)
    (h : k' ≠ k) :
    dget (d.map (fun kv => if kv.1 = k then (k, v) else kv)) k' = dget d k' := by
  induction d with
  | nil => rfl
  | cons hd tl ih =>
    rw [List.map_cons]
    by_cases hk : hd.1 = k
    · rw [if_pos hk, dget_cons, dget_cons]
      have h1 : ¬((k, v).1 = k') := fun hc => h hc.symm
      have h2 : ¬(hd.1 = k') := by rw [hk]; exact fun hc => h hc.symm
      rw [if_neg h1, if_neg h2]
      exact ih
    · rw [if_neg hk, dget_cons, dget_cons]
      by_cases hk' : hd.1 = k'
      · rw [if_pos hk', if_pos hk']
      · rw [if_neg hk', if_neg hk']
        exact ih

theorem dget_none_of_not_any {α : Type} (d : List (List Char × α)) (k : List Char)
    (h : d.any (fun kv => decide (kv.1 = k)) = false) : dget d k = none := by
  induction d with
  | nil => rfl
  | cons hd tl ih =>
    simp only [List.any_cons, Bool.or_eq_false_iff, decide_eq_false_iff_not] at h
    simp [dget_cons, h.1, ih h.2]

theorem dget_append_right {α : Type} (d d2 : List (List Char × α)) (k : List Char)
    (hnone : dget d k = none) : dget (d ++ d2) k = dget d2 k := by
  induction d with
  | nil => rfl
  | cons hd tl ih =>
    rw [List.cons_append, dget_cons]
    rw [dget_cons] at hnone
    by_cases h : hd.1 = k
    · simp [h] at hnone
    · rw [if_neg h] at hnone ⊢
      exact ih hnone

theorem dget_dset_self {α : Type} (d : List (List Char × α)) (k : List Char) (v : α) :
    dget (dset d k v) k = some v := by
  unfold dset
  by_cases hmem : d.any (fun kv => decide (kv.1 = k)) = true
  · rw [if_pos hmem]
    refine dget_map_self d k v ?_
    rcases List.any_eq_true.mp hmem with ⟨kv, hkv, hk⟩
    exact ⟨kv, hkv, of_decide_eq_true hk⟩
  · rw [if_neg hmem]
    rw [dget_append_right d _ k (dget_none_of_not_any d k (Bool.not_eq_true _ ▸ hmem))]
    simp [dget_cons]

theorem dget_dset_ne {α : Type} (d : List (List Char × α)) (k k' : List Char) (v : α)
    (h : k' ≠ k) : dget (dset d k v) k' = dget d k' := by
  unfold dset
  by_cases hmem : d.any (fun kv => decide (kv.1 = k)) = true
  · rw [if_pos hmem]
    exact dget_map_ne d k k' v h
  · rw [if_neg hmem]
    induction d with
    | nil =>
      have h1 : ¬(k = k') := fun hc => h hc.symm
      simp [dget_cons, dget, h1]
    | cons hd tl ih =>
      rw [List.cons_append, dget_cons, dget_cons]
      by_cases hk' : hd.1 = k'
      · rw [if_pos hk', if_pos hk']
      · rw [if_neg hk', if_neg hk']
        refine ih ?_
        simp only [List.any_cons, Bool.or_eq_true] at hmem
        exact fun hc => hmem (Or.inr hc)

theorem joinVals_some (l : List (List Char)) (vs : List (List Char)) :
    joinVals (some l) vs = some (l ++ vs) := by
  simp [joinVals]

theorem joinVals_cons (o : Option (List (List Char))) (v : List Char)
    (vs : List (List Char)) : joinVals o (v :: vs) = some (o.getD [] ++ v :: vs) := by
  simp [joinVals]

theorem pm_invariant (args : List (List Char)) :
    ∀ (d : List (List Char × List (List Char))) (name : List Char),
      (args.foldlM accumOne d).isSome →
      dget ((args.foldlM accumOne d).getD []) name
        = joinVals (dget d name) (valuesFor name args) := by
  induction args with
  | nil =>
    intro d name _
    rw [List.foldlM_nil]
    cases hdg : dget d name <;> simp [valuesFor, joinVals, hdg]
  | cons tok rest ih =>
    intro d name hsome
    rw [List.foldlM_cons] at hsome ⊢
    cases haccum : accumOne d tok with
    | none => rw [haccum] at hsome; simp at hsome
    | some d1 =>
      have hred : (do let init ← some d1; List.foldlM accumOne init rest)
          = List.foldlM accumOne d1 rest := rfl
      rw [haccum] at hsome
      rw [hred] at hsome ⊢
      rcases hsp : splitEq1 tok with ⟨p, o⟩
      cases o with
      | none =>
        unfold accumOne at haccum
        rw [hsp] at haccum
        simp at haccum
      | some v =>
        unfold accumOne at haccum
        rw [hsp] at haccum
        dsimp only at haccum
        rw [Option.some_inj] at haccum
        have hval : valuesFor name (tok :: rest)
            = if pstrip p = name then v :: valuesFor name rest else valuesFor name rest := by
          by_cases hname : pstrip p = name <;>
            simp [valuesFor, List.filterMap_cons, hsp, hname]
        by_cases hname : pstrip p = name
        · have hd1 : dget d1 name = some ((dget d name).getD [] ++ [v]) := by
            rw [← haccum, hname, dget_dset_self]
          rw [ih d1 name hsome, hd1, joinVals_some, hval, if_pos hname, joinVals_cons]
          simp
        · have hd1 : dget d1 name = dget d name := by
            rw [← haccum]
            exact dget_dset_ne _ _ _ _ (fun hc => hname hc.symm)
          rw [ih d1 name hsome, hd1, hval, if_neg hname]

theorem orGroup_fold (name : List Char) (vs : List (List Char)) :
    ∀ s, noAnd s = true →
      noAnd (vs.foldl (fun a w => Sel.or a (Sel.matches name w)) s) = true
      ∧ orLeaves (vs.foldl (fun a w => Sel.or a (Sel.matches name w)) s)
        = orLeaves s ++ vs.map (fun w => Sel.matches name w) := by
  induction vs with
  | nil =>
    intro s hs
    simpa using hs
  | cons w ws ih =>
    intro s hs
    have hstep := ih (Sel.or s (Sel.matches name w)) (by simp [noAnd, hs])
    rw [List.foldl_cons]
    refine ⟨hstep.1, ?_⟩
    rw [hstep.2]
    simp [orLeaves, List.append_assoc]

/-- Claim C3: parameters_multi maps each parameter name to the ordered list
of all values supplied for that name on the command line; a repeated name
appends to the existing list (first-to-last order, duplicates allowed) and
never overwrites a previous value, and the values accumulated under one
name compile to an OR-group (a selector free of AND), never an AND. -/
theorem C3_parameter_accumulator (args : List (List Char)) (name : List Char)
    (h : (parameters_multi args).isSome) :
    (dget ((parameters_multi args).getD []) name
      = if valuesFor name args = [] then none else some (valuesFor name args))
    ∧ (∀ v vs, noAnd (orGroup name (v :: vs)) = true
        ∧ orLeaves (orGroup name (v :: vs))
          = (v :: vs).map (fun w => Sel.matches name w)) := by
  constructor
  · have hinv := pm_invariant args [] name h
    have hnil : dget ([] : List (List Char × List (List Char))) name = none := rfl
    rw [hnil] at hinv
    rw [parameters_multi] at h ⊢
    rw [hinv]
    cases hv : valuesFor name args with
    | nil => simp [joinVals]
    | cons v vs => rw [joinVals_cons]; simp
  · intro v vs
    have hfold := orGroup_fold name vs (Sel.matches name v) (by simp [noAnd])
    refine ⟨hfold.1, ?_⟩
    rw [orGroup, hfold.2]
    simp [orLeaves]

/-- Concrete input for claim C3: tags=cat tags=mouse. -/
def c3Args : List (List Char) := [("tags=cat").toList, ("tags=mouse").toList]

/-- Concrete parameter name for claim C3. -/
def c3Name : List Char := ("tags").toList

/-- Witness for claim C3 at the spec's own test input tags=cat tags=mouse. -/
theorem C3_parameter_accumulator_witness :
    (parameters_multi c3Args).isSome = true
    ∧ dget ((parameters_multi c3Args).getD []) c3Name
        = some [("cat").toList, ("mouse").toList]
    ∧ orLeaves (orGroup c3Name [("cat").toList, ("mouse").toList])
        = [Sel.matches c3Name (("cat").toList), Sel.matches c3Name (("mouse").toList)] := by
  have h := C3_parameter_accumulator c3Args c3Name (by decide)
  refine ⟨by decide, ?_, ?_⟩
  · rw [h.1]; decide
  · have := (h.2 (("cat").toList) [("mouse").toList]).2
    rw [this]; decide

/-- Claim C10: a token holding at least one = is split only at the first =;
the parameter name is the part before the first = with surrounding
whitespace stripped and the value is everything after it, verbatim, so
values may contain = and surrounding whitespace. -/
theorem C10_split_at_first_eq (pre post : List Char) (h : eqChar ∉ pre) :
    splitEq1 (pre ++ eqChar :: post) = (pre, some post)
    ∧ parameters_multi [pre ++ eqChar :: post] = some [(pstrip pre, [post])] := by
  have hsplit : splitEq1 (pre ++ eqChar :: post) = (pre, some post) := by
    induction pre with
    | nil => simp [splitEq1]
    | cons c cs ih =>
      have hc : ¬(c = eqChar) := fun hcc => h (hcc ▸ List.mem_cons_self c cs)
      have ih' := ih (fun hm => h (List.mem_cons_of_mem c hm))
      simp [splitEq1, hc, ih']
  refine ⟨hsplit, ?_⟩
  rw [parameters_multi, List.foldlM_cons, accumOne, hsplit]
  rfl

/-- Concrete name part for the claim C10 witness (with whitespace). -/
def c10Pre : List Char := (" tag ").toList

/-- Concrete value part for the claim C10 witness (contains = and spaces). -/
def c10Post : List Char := (" a=b ").toList

/-- Witness for claim C10: the name is stripped, the value keeps its inner
= and its surrounding whitespace. -/
theorem C10_split_at_first_eq_witness :
    eqChar ∉ c10Pre
    ∧ splitEq1 (c10Pre ++ eqChar :: c10Post) = (c10Pre, some c10Post)
    ∧ parameters_multi [c10Pre ++ eqChar :: c10Post]
        = some [(("tag").toList, [(" a=b ").toList])] := by
  have h := C10_split_at_first_eq c10Pre c10Post (by decide)
  refine ⟨by decide, h.1, ?_⟩
  rw [h.2]
  decide

/-- The concrete pattern used in the any-field counterexample. -/
def catPat : List Char := ("cat").toList

/-- Claim C1 counterexample: on the users table an any term does not
compile to a disjunction of one comparison per real column with
per-column policy; it compiles to a single substring comparison whose
left-hand side is the concatenation of all columns, carrying one bound
value where the claimed expansion carries four. -/
theorem C1_any_or_expansion_counterexample :
    compileFieldTerm usersCols anyField catPat
      = Cmp.like (ColExpr.concatAll usersCols) (wrapLike catPat)
    ∧ (predCmps (Pred.cmp (compileFieldTerm usersCols anyField catPat))).length = 1
    ∧ usersCols.length = 4
    ∧ (specAnyDisjunction usersCols catPat).map (fun p => (predCmps p).length) = some 4
    ∧ some (Pred.cmp (compileFieldTerm usersCols anyField catPat))
        ≠ specAnyDisjunction usersCols catPat := by
  refine ⟨by decide, by decide, by decide, by decide, by decide⟩

/-- Claim C1 amended: for every table an any term compiles to one single
substring (LIKE) comparison whose left-hand side is the concatenation of
all real columns of the target table, with the substring wrapping policy
applied uniformly; there is no per-column disjunction. -/
theorem C1_any_concat_amended (cols : List (List Char)) (pattern : List Char) :
    compileFieldTerm cols anyField pattern
      = Cmp.like (ColExpr.concatAll cols) (wrapLike pattern) := by
  unfold compileFieldTerm queryToSqlTerm
  have hmem : anyField ∈ search_likes cols := by
    unfold search_likes
    refine List.mem_map.mpr ⟨anyField, ?_, by decide⟩
    refine List.mem_filter.mpr ⟨?_, by decide⟩
    exact List.mem_append.mpr (Or.inr (by simp))
  rw [if_pos hmem]
  have hfind : aliasLhs (search_aliases cols) anyField = ColExpr.concatAll cols := by
    unfold aliasLhs search_aliases
    have h1 : (decide (authorField = anyField)) = false := by decide
    have h2 : (decide (anyField = anyField)) = true := by decide
    simp [List.find?, h1, h2]
  rw [hfind]

/-- Claim C2: the matching policy is fixed by the field identity; a term
on id, author or username compiles to an equality comparison when its
pattern has no wildcard and to a raw pattern comparison when it does,
while a term on any other column of the table compiles to a substring
comparison with the wrapped pattern. -/
theorem C2_matching_policy (cols : List (List Char)) (field pattern : List Char)
    (hcanon : canonicalCols cols) :
    ((field ∈ [("id").toList, ("author").toList, ("username").toList]) →
      (hasWildcard pattern = false →
        compileFieldTerm cols field pattern
          = Cmp.eq (aliasLhs (search_aliases cols) field) pattern)
      ∧ (hasWildcard pattern = true →
        compileFieldTerm cols field pattern
          = Cmp.like (aliasLhs (search_aliases cols) field) pattern))
    ∧ (∀ c ∈ cols, c ∉ exact_columns → field = lowerList c →
        compileFieldTerm cols field pattern
          = Cmp.like (aliasLhs (search_aliases cols) field) (wrapLike pattern)) := by
  constructor
  · intro hfield
    have hnot : field ∉ search_likes cols := by
      intro hin
      unfold search_likes at hin
      rcases List.mem_map.mp hin with ⟨c, hcf, hlc⟩
      rcases List.mem_filter.mp hcf with ⟨hcmem, hcex⟩
      rcases List.mem_append.mp hcmem with hcols | hany
      · have : c ∈ exact_columns := by
          refine hcanon c hcols ?_
          rw [hlc]
          exact hfield
        simp only [decide_eq_true_eq] at hcex
        exact hcex this
      · have hc : c = anyField := by simpa using hany
        subst hc
        have hlow : lowerList anyField = anyField := by decide
        rw [hlow] at hlc
        subst hlc
        simp only [List.mem_cons, List.mem_singleton] at hfield
        rcases hfield with h | h | h <;> exact absurd h (by decide)
    unfold compileFieldTerm queryToSqlTerm
    rw [if_neg hnot]
    constructor
    · intro hw
      rw [hw]
      simp
    · intro hw
      rw [hw]
      simp
  · intro c hc hcex hfield
    have hmem : field ∈ search_likes cols := by
      unfold search_likes
      refine List.mem_map.mpr ⟨c, ?_, hfield.symm⟩
      refine List.mem_filter.mpr ⟨?_, by simpa using hcex⟩
      exact List.mem_append.mpr (Or.inl hc)
    unfold compileFieldTerm queryToSqlTerm
    rw [if_pos hmem]

/-- Witness for claim C2 on the users table: username without wildcards
compiles to equality, username with wildcards to a raw pattern match,
author to equality against the underscore-stripped author expression and
folders to a wrapped substring match. -/
theorem C2_matching_policy_witness :
    compileFieldTerm usersCols (("username").toList) (("tom").toList)
      = Cmp.eq (ColExpr.col (("username").toList)) (("tom").toList)
    ∧ compileFieldTerm usersCols (("username").toList) (("%tom%").toList)
      = Cmp.like (ColExpr.col (("username").toList)) (("%tom%").toList)
    ∧ compileFieldTerm usersCols (("author").toList) (("tom").toList)
      = Cmp.eq ColExpr.authorNoUnderscore (("tom").toList)
    ∧ compileFieldTerm usersCols (("folders").toList) (("cat").toList)
      = Cmp.like (ColExpr.col (("folders").toList)) (("%cat%").toList) := by
  have h1 := C2_matching_policy usersCols (("username").toList) (("tom").toList) (by decide)
  have h2 := C2_matching_policy usersCols (("username").toList) (("%tom%").toList) (by decide)
  have h3 := C2_matching_policy usersCols (("author").toList) (("tom").toList) (by decide)
  have h4 := C2_matching_policy usersCols (("folders").toList) (("cat").toList) (by decide)
  refine ⟨?_, ?_, ?_, ?_⟩
  · exact ((h1.1 (by decide)).1 (by decide)).trans (by decide)
  · exact ((h2.1 (by decide)).2 (by decide)).trans (by decide)
  · exact ((h3.1 (by decide)).1 (by decide)).trans (by decide)
  · exact (h4.2 (("FOLDERS").toList) (by decide) (by decide) (by decide)).trans (by decide)

theorem foldl_pres {α β : Type} (P : β → Prop) (f : β → α → β)
    (hf : ∀ b a, P b → P (f b a)) :
    ∀ (l : List α) (b : β), P b → P (l.foldl f b) := by
  intro l
  induction l with
  | nil => intro b hb; exact hb
  | cons x xs ih => intro b hb; exact ih _ (hf b x hb)

theorem histPres_commit (e : Nat × String) (db : DB) (h : HistPres e db) :
    HistPres e (commit db) := ⟨h.1, h.1⟩

theorem remove_users_hist (e : Nat × String) (db : DB) (args : List String)
    (h : HistPres e db) : HistPres e (database_remove_users db args).1 := by
  unfold database_remove_users
  refine foldl_pres (fun r : Res => HistPres e r.1) _ ?_ args (db, [], none) h
  intro r u hr
  exact histPres_commit e _ ⟨hr.1, hr.2⟩

theorem remove_subs_hist (e : Nat × String) (db : DB) (args : List String)
    (h : HistPres e db) : HistPres e (database_remove_submissions db args).1 := by
  unfold database_remove_submissions
  refine foldl_pres (fun r : Res => HistPres e r.1) _ ?_ args (db, [], none) h
  intro r s hr
  cases hr2 : r.2.2 with
  | some err => simpa [hr2] using hr
  | none =>
    by_cases hok : pyIntOk s.toList = true
    · simp only [hr2, hok, if_true]
      exact histPres_commit e _ ⟨hr.1, hr.2⟩
    · simp only [hr2, Bool.not_eq_true] at hok
      simp only [hr2, hok, Bool.false_eq_true, if_false]
      exact hr

theorem remove_jrns_loop_hist (e : Nat × String) (db : DB) (args : List String)
    (h : HistPres e db) : HistPres e (removeJrnsLoop db args).1 := by
  unfold removeJrnsLoop
  refine foldl_pres (fun r : Res => HistPres e r.1) _ ?_ args (db, [], none) h
  intro r s hr
  cases hr2 : r.2.2 with
  | some err => simpa [hr2] using hr
  | none =>
    by_cases hok : pyIntOk s.toList = true
    · simp only [hr2, hok, if_true]
      exact ⟨hr.1, hr.2⟩
    · simp only [hr2, Bool.not_eq_true] at hok
      simp only [hr2, hok, Bool.false_eq_true, if_false]
      exact hr

theorem remove_jrns_hist (e : Nat × String) (db : DB) (args : List String)
    (h : HistPres e db) : HistPres e (database_remove_journals db args).1 := by
  have hloop := remove_jrns_loop_hist e db args h
  unfold database_remove_journals
  cases hr2 : (removeJrnsLoop db args).2.2 with
  | none => exact histPres_commit e _ hloop
  | some err => exact hloop

theorem config_cookies_db_eq (db : DB) (args : List String) :
    (config_cookies db args).1 = db := by
  unfold config_cookies
  rcases args with _ | ⟨a, _ | ⟨b, _ | ⟨c, rest⟩⟩⟩ <;> rfl

theorem config_files_folder_db_eq (db : DB) (args : List String) :
    (config_files_folder db args).1 = db := by
  unfold config_files_folder
  dsimp only
  generalize (parse_args args).2 = l
  rcases l with _ | ⟨d, _ | ⟨d2, r⟩⟩ <;> rfl

theorem config_op_db_eq (db : DB) (comm : String) (args : List String) :
    (config_op db comm args).1 = db := by
  unfold config_op
  split
  · rfl
  · rfl
  · exact config_cookies_db_eq db args
  · exact config_files_folder_db_eq db args
  · rfl

theorem config_db_eq (expected : String) (db : DB) (comm : String) (args : List String) :
    (config expected db comm args).1 = db := by
  unfold config
  rcases hck : check_database_version expected db true with ⟨w, o⟩
  cases o with
  | some e => rfl
  | none =>
    dsimp only
    exact config_op_db_eq db comm args

theorem download_users_db_eq (db : DB) (args : List String) :
    (download_users db args).1 = db := by
  unfold download_users
  rcases args with _ | ⟨a, _ | ⟨b, _ | ⟨c, rest⟩⟩⟩ <;> rfl

theorem download_update_db_eq (db : DB) (args : List String) :
    (download_update db args).1 = db := by
  unfold download_update
  dsimp only
  split_ifs <;> rfl

theorem download_subs_db_eq (db : DB) (args : List String) :
    (download_submissions db args).1 = db := by
  unfold download_submissions
  split_ifs <;> rfl

theorem download_jrns_db_eq (db : DB) (args : List String) :
    (download_journals db args).1 = db := by
  unfold download_journals
  split_ifs <;> rfl

theorem download_op_db_eq (db : DB) (comm : String) (args : List String) :
    (download_op db comm args).1 = db := by
  unfold download_op
  split
  · exact download_users_db_eq db args
  · exact download_update_db_eq db args
  · exact download_subs_db_eq db args
  · exact download_jrns_db_eq db args
  · rfl

theorem download_db_eq (expected : String) (procs : List Proc) (db : DB)
    (comm : String) (args : List String) :
    (download expected procs db comm args).1 = db := by
  unfold download
  rcases hck : check_database_version expected db true with ⟨w, o⟩
  cases o with
  | some e => rfl
  | none =>
    dsimp only
    cases hcp : check_process "falocalrepo" procs with
    | some e => rfl
    | none =>
      dsimp only
      exact download_op_db_eq db comm args

theorem init_db_eq (expected : String) (db : DB) : (init expected db).1 = db := by
  unfold init
  rcases hck : check_database_version expected db true with ⟨w, o⟩
  cases o <;> rfl

theorem database_search_db_eq (db : DB) (table : String) (args : List String) :
    (database_search db table args).1 = db := by
  unfold database_search
  cases hp : parameters_multi (args.map (fun a => a.toList)) <;> rfl

theorem merge_copy_hist (e : Nat × String) (db : DB) (m : Bool) (args : List String)
    (h : HistPres e db) : HistPres e (database_merge_copy db m args).1 := by
  unfold database_merge_copy
  rcases args with _ | ⟨a, rest⟩
  · exact h
  · dsimp only
    cases hp : parameters_multi (rest.map (fun a => a.toList)) with
    | none => exact h
    | some d => exact histPres_commit e db h

theorem database_op_hist (expected : String) (db : DB) (comm : String)
    (args : List String) (e : Nat × String) (h : HistPres e db) :
    HistPres e (database_op expected db comm args).1 := by
  unfold database_op
  split
  · exact h
  · exact h
  · exact h
  · rw [database_search_db_eq]; exact h
  · rw [database_search_db_eq]; exact h
  · rw [database_search_db_eq]; exact h
  · exact h
  · exact h
  · exact h
  · exact remove_users_hist e db args h
  · exact remove_subs_hist e db args h
  · exact remove_jrns_hist e db args h
  · exact h
  · exact merge_copy_hist e db true args h
  · exact merge_copy_hist e db false args h
  · exact h
  · exact ⟨h.1, h.2⟩
  · exact h

theorem database_hist (expected : String) (db : DB) (comm : String) (args : List String)
    (e : Nat × String) (h : HistPres e db) :
    HistPres e (database expected db comm args).1 := by
  unfold database
  rcases hck : check_database_version expected db (!versionExempt comm) with ⟨w, o⟩
  cases o with
  | some err => exact h
  | none =>
    dsimp only
    exact database_op_hist expected db comm args e h

theorem console_init_eq (expected : String) (procs : List Proc) (t : Nat)
    (args : List String) (db : DB) :
    console expected procs t "init" args db
      = (commit (init expected (commit (addHistory t (historyLine "init" args) db))).1,
         (init expected (commit (addHistory t (historyLine "init" args) db))).2.1,
         (init expected (commit (addHistory t (historyLine "init" args) db))).2.2) := by
  rfl

theorem console_config_eq (expected : String) (procs : List Proc) (t : Nat)
    (args : List String) (db : DB) :
    console expected procs t "config" args db
      = (commit (config expected (commit (addHistory t (historyLine "config" args) db))
           (args.getD 0 "") (args.drop 1)).1,
         (config expected (commit (addHistory t (historyLine "config" args) db))
           (args.getD 0 "") (args.drop 1)).2.1,
         (config expected (commit (addHistory t (historyLine "config" args) db))
           (args.getD 0 "") (args.drop 1)).2.2) := by
  rfl

theorem console_download_eq (expected : String) (procs : List Proc) (t : Nat)
    (args : List String) (db : DB) :
    console expected procs t "download" args db
      = (commit (download expected procs (commit (addHistory t (historyLine "download" args) db))
           (args.getD 0 "") (args.drop 1)).1,
         (download expected procs (commit (addHistory t (historyLine "download" args) db))
           (args.getD 0 "") (args.drop 1)).2.1,
         (download expected procs (commit (addHistory t (historyLine "download" args) db))
           (args.getD 0 "") (args.drop 1)).2.2) := by
  rfl

theorem console_database_eq (expected : String) (procs : List Proc) (t : Nat)
    (args : List String) (db : DB) :
    console expected procs t "database" args db
      = (commit (database expected (commit (addHistory t (historyLine "database" args) db))
           (args.getD 0 "") (args.drop 1)).1,
         (database expected (commit (addHistory t (historyLine "database" args) db))
           (args.getD 0 "") (args.drop 1)).2.1,
         (database expected (commit (addHistory t (historyLine "database" args) db))
           (args.getD 0 "") (args.drop 1)).2.2) := by
  rfl

/-- Claim C4 counterexample: two detectable live processes operate on the
same archive, yet the mutating operation database remove-submissions
raises nothing and deletes the entry: the scan does not guard mutating
database operations between and no MultipleInstances failure occurs. -/
theorem C4_no_scan_counterexample :
    procA.archive = procB.archive
    ∧ procMatches "falocalrepo" procA = true
    ∧ procMatches "falocalrepo" procB = true
    ∧ (console "4.0.0" [procA, procB] 7 "database" ["remove-submissions", "12"] dbOneSub).2.2
        = none
    ∧ (console "4.0.0" [procA, procB] 7 "database"
        ["remove-submissions", "12"] dbOneSub).1.disk.submissions = []
    ∧ dbOneSub.disk.submissions = [12] := by
  refine ⟨by decide, by decide, by decide, by decide, by decide, by decide⟩

/-- Claim C4 amended: only the download command performs the live-process
scan; it counts python processes whose command line names the program
(regardless of archive path) and raises MultipleInstances when more than
one is found, in which case no download handler runs and the archive is
unchanged beyond the already committed history entry. -/
theorem C4_amended_scan_only_in_download (expected : String) (procs : List Proc)
    (t : Nat) (args : List String) (db : DB)
    (hver : db.version = expected)
    (hcount : 2 ≤ (procs.filter (procMatches "falocalrepo")).length) :
    console expected procs t "download" args db
      = (commit (commit (addHistory t (historyLine "download" args) db)), [],
         some (Err.multipleInstances "falocalrepo")) := by
  rw [console_download_eq]
  have hdb1 : (commit (addHistory t (historyLine "download" args) db)).version = expected :=
    hver
  have hdl : download expected procs (commit (addHistory t (historyLine "download" args) db))
      (args.getD 0 "") (args.drop 1)
      = (commit (addHistory t (historyLine "download" args) db), [],
         some (Err.multipleInstances "falocalrepo")) := by
    unfold download
    rw [check_database_version, if_pos hdb1]
    dsimp only
    rw [check_process, if_pos hcount]
  rw [hdl]

/-- Witness for the amended claim C4 at a concrete archive and two
concrete matching processes. -/
theorem C4_amended_scan_only_in_download_witness :
    console "4.0.0" [procA, procB] 7 "download" ["users", "tom", "gallery"] dbOneSub
      = (commit (commit (addHistory 7
          (historyLine "download" ["users", "tom", "gallery"]) dbOneSub)),
         [], some (Err.multipleInstances "falocalrepo")) :=
  C4_amended_scan_only_in_download "4.0.0" [procA, procB] 7
    ["users", "tom", "gallery"] dbOneSub (by decide) (by decide)

/-- Claim C5: an unknown config operation does not fail: console.py line
310 constructs UnknownCommand without raising it, so the invocation ends
with no error and no effect, while the sibling dispatch levels (top
level, database, download) do raise UnknownCommand with the offending
tokens. -/
theorem C5_config_unknown_not_raised :
    (console "4.0.0" [] 3 "config" ["bogus"] dbOneSub).2.2 = none
    ∧ (console "4.0.0" [] 3 "config" ["bogus"] dbOneSub).2.1 = []
    ∧ (console "4.0.0" [] 3 "database" ["bogus"] dbOneSub).2.2
        = some (Err.unknownCommand "database bogus")
    ∧ (console "4.0.0" [] 3 "download" ["bogus"] dbOneSub).2.2
        = some (Err.unknownCommand "download bogus")
    ∧ (console "4.0.0" [] 3 "bogus" [] dbOneSub).2.2
        = some (Err.unknownCommand "bogus") := by
  refine ⟨by decide, by decide, by decide, by decide, by decide⟩

/-- Claim C6 counterexample: with a mismatched schema version the basic
history listing does not proceed in degraded mode; it aborts with the
version error after the warning, while info does proceed. -/
theorem C6_history_aborts_counterexample :
    (database "4.0.0" dbOldVersion "history" []).2.2
        = some (Err.versionMismatch "3.0.0" "4.0.0")
    ∧ (database "4.0.0" dbOldVersion "history" []).2.1
        = [Eff.warnVersion "3.0.0" "4.0.0"]
    ∧ Eff.historyShown ∉ (database "4.0.0" dbOldVersion "history" []).2.1
    ∧ (database "4.0.0" dbOldVersion "info" []).2.2 = none
    ∧ Eff.infoShown ∈ (database "4.0.0" dbOldVersion "info" []).2.1 := by
  refine ⟨by decide, by decide, by decide, by decide, by decide⟩

/-- Claim C6 amended: on a version mismatch every database operation
other than the default listing, info and upgrade fails with the version
error after printing the warning that reports both versions and points at
the upgrade command; the default, info and upgrade proceed in degraded
mode after the same warning. -/
theorem C6_amended_version_gate (expected : String) (db : DB) (comm : String)
    (args : List String) (hm : db.version ≠ expected) :
    (versionExempt comm = false →
      database expected db comm args
        = (db, [Eff.warnVersion db.version expected],
           some (Err.versionMismatch db.version expected)))
    ∧ (versionExempt comm = true →
      (database expected db comm args).2.2 = none
      ∧ Eff.warnVersion db.version expected ∈ (database expected db comm args).2.1
      ∧ ((comm = "" ∨ comm = "info") →
          Eff.infoShown ∈ (database expected db comm args).2.1)
      ∧ (comm = "upgrade" →
          Eff.upgradeRun ∈ (database expected db comm args).2.1)) := by
  constructor
  · intro hex
    have hck : check_database_version expected db (!versionExempt comm)
        = ([Eff.warnVersion db.version expected],
           some (Err.versionMismatch db.version expected)) := by
      rw [check_database_version, if_neg hm, hex]
      rfl
    unfold database
    rw [hck]
  · intro hex
    have hck : check_database_version expected db (!versionExempt comm)
        = ([Eff.warnVersion db.version expected], none) := by
      rw [check_database_version, if_neg hm, hex]
      rfl
    have hcases : comm = "" ∨ comm = "info" ∨ comm = "upgrade" := by
      unfold versionExempt at hex
      simp only [Bool.or_eq_true, decide_eq_true_eq] at hex
      tauto
    have hbase : database expected db comm args
        = (let r := database_op expected db comm args;
           (r.1, [Eff.warnVersion db.version expected] ++ r.2.1, r.2.2)) := by
      unfold database
      rw [hck]
    rcases hcases with rfl | rfl | rfl
    · rw [hbase]
      refine ⟨rfl, by simp, fun _ => by simp [database_op, database_info], ?_⟩
      intro hc
      exact absurd hc (by decide)
    · rw [hbase]
      refine ⟨rfl, by simp, fun _ => by simp [database_op, database_info], ?_⟩
      intro hc
      exact absurd hc (by decide)
    · rw [hbase]
      refine ⟨rfl, by simp, ?_, fun _ => by simp [database_op]⟩
      intro hc
      rcases hc with hc | hc <;> exact absurd hc (by decide)

/-- Witness for the amended claim C6: a concrete outdated archive, the
history operation aborting and the info operation proceeding. -/
theorem C6_amended_version_gate_witness :
    database "4.0.0" dbOldVersion "history" []
      = (dbOldVersion, [Eff.warnVersion "3.0.0" "4.0.0"],
         some (Err.versionMismatch "3.0.0" "4.0.0"))
    ∧ (database "4.0.0" dbOldVersion "info" []).2.2 = none := by
  have h1 := (C6_amended_version_gate "4.0.0" dbOldVersion "history" [] (by decide)).1
    (by decide)
  have h2 := ((C6_amended_version_gate "4.0.0" dbOldVersion "info" [] (by decide)).2
    (by decide)).1
  exact ⟨h1.trans (by decide), h2⟩

/-- Claim C7: for every invocation that reaches one of the four archive
command handlers, the (timestamp, command line) history entry is
committed before the handler body runs and is still committed in the
final state, whatever the handler then does or raises. -/
theorem C7_history_committed_before_handler (expected : String) (procs : List Proc)
    (t : Nat) (comm : String) (args : List String) (db : DB)
    (h : comm = "init" ∨ comm = "config" ∨ comm = "download" ∨ comm = "database") :
    (t, historyLine comm args)
        ∈ (commit (addHistory t (historyLine comm args) db)).disk.history
    ∧ (t, historyLine comm args)
        ∈ (console expected procs t comm args db).1.disk.history := by
  have hpre : HistPres (t, historyLine comm args)
      (commit (addHistory t (historyLine comm args) db)) := by
    constructor <;> simp [commit, addHistory]
  refine ⟨hpre.2, ?_⟩
  rcases h with rfl | rfl | rfl | rfl
  · rw [console_init_eq]
    rw [init_db_eq]
    exact (histPres_commit _ _ hpre).2
  · rw [console_config_eq]
    rw [config_db_eq]
    exact (histPres_commit _ _ hpre).2
  · rw [console_download_eq]
    rw [download_db_eq]
    exact (histPres_commit _ _ hpre).2
  · rw [console_database_eq]
    have hd := database_hist expected (commit (addHistory t (historyLine "database" args) db))
      (args.getD 0 "") (args.drop 1) (t, historyLine "database" args) hpre
    exact (histPres_commit _ _ hd).2

/-- Witness for claim C7: the recorded line of a concrete invocation is
committed on disk in the final state even though the handler mutated and
re-committed the archive afterwards. -/
theorem C7_history_committed_before_handler_witness :
    historyLine "database" ["remove-submissions", "12"] = "database remove-submissions 12"
    ∧ (7, historyLine "database" ["remove-submissions", "12"])
        ∈ (console "4.0.0" [] 7 "database"
            ["remove-submissions", "12"] dbOneSub).1.disk.history := by
  refine ⟨by decide, ?_⟩
  exact (C7_history_committed_before_handler "4.0.0" [] 7 "database"
    ["remove-submissions", "12"] dbOneSub (by decide)).2

theorem decodeLoop_length (fuel : Nat) :
    ∀ bs : List Nat, (decodeLoop fuel bs).length ≤ bs.length := by
  induction fuel with
  | zero => intro bs; simp [decodeLoop]
  | succ fuel ih =>
    intro bs
    cases bs with
    | nil => simp [decodeLoop]
    | cons b rest =>
      rw [decodeLoop]
      simp only [List.length_cons]
      have h1 := (u8step (b :: rest)).2
      have h2 := ih ((b :: rest).drop (u8step (b :: rest)).1.1)
      have h3 : ((b :: rest).drop (u8step (b :: rest)).1.1).length
          = rest.length + 1 - (u8step (b :: rest)).1.1 := by
        simp [List.length_drop]
      omega

theorem decodeReplace_length (bs : List Nat) :
    (decodeReplace bs).length ≤ bs.length := decodeLoop_length bs.length bs

theorem utf8EncodeChar_ascii (c : Nat) (h : c < 0x80) : utf8EncodeChar c = [c] := by
  unfold utf8EncodeChar
  rw [if_pos h]

theorem utf8Encode_ascii (s : List Nat) (h : allAscii s = true) : utf8Encode s = s := by
  induction s with
  | nil => rfl
  | cons c cs ih =>
    simp only [allAscii, List.all_cons, Bool.and_eq_true, decide_eq_true_eq] at h
    rw [utf8Encode, List.flatMap_cons, utf8EncodeChar_ascii c h.1]
    have hcs : utf8Encode cs = cs := ih h.2
    rw [utf8Encode] at hcs
    rw [hcs]
    rfl

theorem u8step_ascii (c : Nat) (cs : List Nat) (h : c < 0x80) :
    (u8step (c :: cs)).1 = (1, c) := by
  simp [u8step, h]

theorem decodeLoop_ascii (fuel : Nat) :
    ∀ s : List Nat, allAscii s = true → s.length ≤ fuel → decodeLoop fuel s = s := by
  induction fuel with
  | zero =>
    intro s _ hlen
    have : s = [] := List.length_eq_zero.mp (by omega)
    subst this
    rfl
  | succ fuel ih =>
    intro s hs hlen
    cases s with
    | nil => rfl
    | cons c cs =>
      simp only [allAscii, List.all_cons, Bool.and_eq_true, decide_eq_true_eq] at hs
      rw [decodeLoop, u8step_ascii c cs hs.1]
      simp only [List.drop_succ_cons, List.drop_zero]
      rw [ih cs hs.2 (by simpa using hlen)]

theorem decodeReplace_ascii (s : List Nat) (h : allAscii s = true) :
    decodeReplace s = s :=
  decodeLoop_ascii s.length s h (Nat.le_refl _)

theorem allAscii_take (s : List Nat) (w : Nat) (h : allAscii s = true) :
    allAscii (s.take w) = true := by
  simp only [allAscii, List.all_eq_true] at h ⊢
  intro c hc
  exact h c (List.take_subset w s hc)

/-- Claim C8 amended: in the plain branch each value with a nonzero column
width is fitted by raw byte truncation: the UTF-8 encoding (with
replacement) is cut to the first width bytes and decoded with replacement
markers, so the result has at most width characters, and on pure-ASCII
values byte truncation coincides with character truncation; no
display-width measurement is involved in per-value fitting. -/
theorem C8_amended_byte_truncation (s : List Nat) (w : Nat) (hw : 0 < w) :
    fit_string s w = decodeReplace ((utf8Encode s).take w)
    ∧ (fit_string s w).length ≤ w
    ∧ (allAscii s = true → fit_string s w = s.take w) := by
  have hne : ¬(w = 0) := by omega
  refine ⟨by rw [fit_string, if_neg hne], ?_, ?_⟩
  · rw [fit_string, if_neg hne]
    calc (decodeReplace ((utf8Encode s).take w)).length
        ≤ ((utf8Encode s).take w).length := decodeReplace_length _
      _ ≤ w := by simp [List.length_take]
  · intro ha
    rw [fit_string, if_neg hne, utf8Encode_ascii s ha]
    exact decodeReplace_ascii _ (allAscii_take s w ha)

/-- Witness for the amended claim C8: a concrete ASCII value is cut to its
first two characters, a concrete accented value stays within the width. -/
theorem C8_amended_byte_truncation_witness :
    fit_string [0x63, 0x61, 0x74] 2 = [0x63, 0x61]
    ∧ (fit_string [0xE9, 0x61] 2).length ≤ 2 := by
  have h1 := C8_amended_byte_truncation [0x63, 0x61, 0x74] 2 (by decide)
  have h2 := C8_amended_byte_truncation [0xE9, 0x61] 2 (by decide)
  exact ⟨(h1.2.2 (by decide)).trans (by decide), h2.2.1⟩

/-- Claim C8 counterexample: fitting is not display-width-aware in either
branch: the plain branch cuts a value of two one-cell characters (an
accented e followed by a) down to one character because it truncates by
bytes, and the styled branch keeps two wide CJK characters (four cells)
in a two-cell column because it slices by character count; the
display-width fit of the spec disagrees with both. -/
theorem C8_not_display_width_counterexample :
    fit_string [0xE9, 0x61] 2 = [0xE9]
    ∧ specFitDisplay [0xE9, 0x61] 2 = [0xE9, 0x61]
    ∧ fit_string [0xE9, 0x61] 2 ≠ specFitDisplay [0xE9, 0x61] 2
    ∧ color_column_fit [0x4E00, 0x4E01] 2 = [0x4E00, 0x4E01]
    ∧ specFitDisplay [0x4E00, 0x4E01] 2 = [0x4E00]
    ∧ dispWidth 0x4E00 + dispWidth 0x4E01 = 4
    ∧ format_value (TValue.l [[0x61], [0x62]]) = [0x61, 0x20, 0x62] := by
  refine ⟨by decide, by decide, by decide, by decide, by decide, by decide, by decide⟩

theorem hexVal_hexDig (n : Nat) (h : n < 16) : hexVal (hexDig n) = some n := by
  interval_cases n <;> decide

theorem charValid (c : Char) :
    c.toNat < 0xD800 ∨ (0xDFFF < c.toNat ∧ c.toNat < 0x110000) := c.valid


theorem parseEscSeq_short (e u : Char) (t : List Char) (he : ¬ e = ch 117)
    (hu : unescChar e = some u) : parseEscSeq (e :: t) = some (u, t) := by
  simp only [parseEscSeq, if_neg he, hu]

theorem parseEscSeq_bmp (v : Nat) (t : List Char) (h1 : v < 65536)
    (h2 : v < 55296 ∨ 57344 ≤ v) :
    parseEscSeq (ch 117 :: (toHex4 v ++ t)) = some (Char.ofNat v, t) := by
  have e1 := hexVal_hexDig (v / 4096 % 16) (Nat.mod_lt _ (by omega))
  have e2 := hexVal_hexDig (v / 256 % 16) (Nat.mod_lt _ (by omega))
  have e3 := hexVal_hexDig (v / 16 % 16) (Nat.mod_lt _ (by omega))
  have e4 := hexVal_hexDig (v % 16) (Nat.mod_lt _ (by omega))
  have hv : ((v / 4096 % 16 * 16 + v / 256 % 16) * 16 + v / 16 % 16) * 16 + v % 16 = v := by
    omega
  simp only [toHex4, List.cons_append, List.nil_append, parseEscSeq, if_pos rfl,
    e1, e2, e3, e4, hv]
  rw [if_pos trivial, if_pos h2]

theorem parseEscSeq_astral (v1 v2 : Nat) (t : List Char) (ha : 55296 <= v1)
    (hb : v1 < 56320) (hc : 56320 <= v2) (hd : v2 < 57344) :
    parseEscSeq (ch 117 :: (toHex4 v1 ++ (bsChar :: ch 117 :: (toHex4 v2 ++ t)))) =
    some (Char.ofNat (65536 + (v1 - 55296) * 1024 + (v2 - 56320)), t) := by
  have e1 := hexVal_hexDig (v1 / 4096 % 16) (Nat.mod_lt _ (by omega))
  have e2 := hexVal_hexDig (v1 / 256 % 16) (Nat.mod_lt _ (by omega))
  have e3 := hexVal_hexDig (v1 / 16 % 16) (Nat.mod_lt _ (by omega))
  have e4 := hexVal_hexDig (v1 % 16) (Nat.mod_lt _ (by omega))
  have e5 := hexVal_hexDig (v2 / 4096 % 16) (Nat.mod_lt _ (by omega))
  have e6 := hexVal_hexDig (v2 / 256 % 16) (Nat.mod_lt _ (by omega))
  have e7 := hexVal_hexDig (v2 / 16 % 16) (Nat.mod_lt _ (by omega))
  have e8 := hexVal_hexDig (v2 % 16) (Nat.mod_lt _ (by omega))
  have hr1 : ((v1 / 4096 % 16 * 16 + v1 / 256 % 16) * 16 + v1 / 16 % 16) * 16 + v1 % 16 = v1 := by
    omega
  have hr2 : ((v2 / 4096 % 16 * 16 + v2 / 256 % 16) * 16 + v2 / 16 % 16) * 16 + v2 % 16 = v2 := by
    omega
  simp only [toHex4, List.cons_append, List.nil_append, parseEscSeq,
    e1, e2, e3, e4, e5, e6, e7, e8, hr1, hr2]
  rw [if_pos trivial, if_neg (by omega : ¬ (v1 < 55296 ∨ 57344 ≤ v1)),
    if_pos hb, if_pos ⟨trivial, trivial⟩, if_pos ⟨hc, hd⟩]

theorem psbF_esc2 (x c : Char) (fuel : Nat) (t s rest : List Char)
    (hx : ¬ x = ch 117) (hu : unescChar x = some c)
    (ih : parseStrBodyF fuel t = some (s, rest)) :
    parseStrBodyF (fuel + 1) (bsChar :: x :: t) = some (c :: s, rest) := by
  have hbq : ¬ bsChar = quoteChar := by decide
  rw [parseStrBodyF, if_neg hbq, if_pos rfl, parseEscSeq_short x c t hx hu]
  simp only [ih]

theorem psbF_step (c : Char) (fuel : Nat) (t s rest : List Char)
    (ih : parseStrBodyF fuel t = some (s, rest)) :
    parseStrBodyF (fuel + 1) (escChar c ++ t) = some (c :: s, rest) := by
  have hbq : ¬ bsChar = quoteChar := by decide
  by_cases h1 : c = quoteChar
  · subst h1
    rw [show escChar quoteChar ++ t = bsChar :: quoteChar :: t from rfl]
    exact psbF_esc2 quoteChar quoteChar fuel t s rest (by decide) (by decide) ih
  by_cases h2 : c = bsChar
  · subst h2
    rw [show escChar bsChar ++ t = bsChar :: bsChar :: t from rfl]
    exact psbF_esc2 bsChar bsChar fuel t s rest (by decide) (by decide) ih
  by_cases h3 : c = ch 8
  · subst h3
    rw [show escChar (ch 8) ++ t = bsChar :: ch 98 :: t from rfl]
    exact psbF_esc2 (ch 98) (ch 8) fuel t s rest (by decide) (by decide) ih
  by_cases h4 : c = ch 9
  · subst h4
    rw [show escChar (ch 9) ++ t = bsChar :: ch 116 :: t from rfl]
    exact psbF_esc2 (ch 116) (ch 9) fuel t s rest (by decide) (by decide) ih
  by_cases h5 : c = ch 10
  · subst h5
    rw [show escChar (ch 10) ++ t = bsChar :: ch 110 :: t from rfl]
    exact psbF_esc2 (ch 110) (ch 10) fuel t s rest (by decide) (by decide) ih
  by_cases h6 : c = ch 12
  · subst h6
    rw [show escChar (ch 12) ++ t = bsChar :: ch 102 :: t from rfl]
    exact psbF_esc2 (ch 102) (ch 12) fuel t s rest (by decide) (by decide) ih
  by_cases h7 : c = ch 13
  · subst h7
    rw [show escChar (ch 13) ++ t = bsChar :: ch 114 :: t from rfl]
    exact psbF_esc2 (ch 114) (ch 13) fuel t s rest (by decide) (by decide) ih
  by_cases h8 : 32 ≤ c.toNat ∧ c.toNat ≤ 126
  · have he : escChar c = [c] := by
      rw [escChar, if_neg h1, if_neg h2, if_neg h3, if_neg h4, if_neg h5, if_neg h6, if_neg h7,
        if_pos h8]
    rw [he, show ([c] : List Char) ++ t = c :: t from rfl,
      parseStrBodyF, if_neg h1, if_neg h2]
    simp only [ih]
  by_cases h9 : c.toNat < 65536
  · have he : escChar c = bsChar :: ch 117 :: toHex4 c.toNat := by
      rw [escChar, if_neg h1, if_neg h2, if_neg h3, if_neg h4, if_neg h5, if_neg h6, if_neg h7,
        if_neg h8, if_pos h9]
    have hv : c.toNat < 55296 ∨ 57344 ≤ c.toNat := by
      rcases charValid c with h | h
      · exact Or.inl h
      · exact Or.inr (by omega)
    rw [he]
    simp only [List.cons_append]
    rw [parseStrBodyF, if_neg hbq, if_pos rfl,
      parseEscSeq_bmp c.toNat t h9 hv, Char.ofNat_toNat]
    simp only [ih]
  · have he : escChar c = bsChar :: ch 117 :: toHex4 (55296 + (c.toNat - 65536) / 1024)
        ++ bsChar :: ch 117 :: toHex4 (56320 + (c.toNat - 65536) % 1024) := by
      rw [escChar, if_neg h1, if_neg h2, if_neg h3, if_neg h4, if_neg h5, if_neg h6, if_neg h7,
        if_neg h8, if_neg h9]
    have hlt : c.toNat < 1114112 := by
      rcases charValid c with h | h
      · omega
      · exact h.2
    rw [he]
    simp only [List.cons_append, List.append_assoc]
    rw [parseStrBodyF, if_neg hbq, if_pos rfl,
      parseEscSeq_astral (55296 + (c.toNat - 65536) / 1024) (56320 + (c.toNat - 65536) % 1024) t
        (by omega) (by omega) (by omega) (by omega)]
    have hn : 65536 + (55296 + (c.toNat - 65536) / 1024 - 55296) * 1024
        + (56320 + (c.toNat - 65536) % 1024 - 56320) = c.toNat := by omega
    rw [hn, Char.ofNat_toNat]
    simp only [ih]

theorem psbF_escStr (s : List Char) : ∀ (fuel : Nat) (rest : List Char), s.length < fuel →
    parseStrBodyF fuel (escStr s ++ quoteChar :: rest) = some (s, rest) := by
  induction s with
  | nil =>
    intro fuel rest hf
    obtain ⟨f, rfl⟩ : ∃ f, fuel = f + 1 := ⟨fuel - 1, by omega⟩
    rw [show escStr [] ++ quoteChar :: rest = quoteChar :: rest from rfl,
      parseStrBodyF, if_pos rfl]
  | cons c s ih =>
    intro fuel rest hf
    obtain ⟨f, rfl⟩ : ∃ f, fuel = f + 1 := ⟨fuel - 1, by omega⟩
    have h1 : escStr (c :: s) ++ quoteChar :: rest
        = escChar c ++ (escStr s ++ quoteChar :: rest) := by
      simp [escStr, List.append_assoc]
    rw [h1]
    refine psbF_step c f _ s rest (ih f rest ?_)
    simp only [List.length_cons] at hf
    omega

theorem escChar_length (c : Char) : 1 ≤ (escChar c).length := by
  unfold escChar
  split_ifs <;> simp [toHex4]

theorem escStr_length (s : List Char) : s.length ≤ (escStr s).length := by
  induction s with
  | nil => simp [escStr]
  | cons c s ih =>
    have h := escChar_length c
    simp only [escStr, List.flatMap_cons, List.length_append, List.length_cons] at *
    omega

theorem parseStrBody_esc (s rest : List Char) :
    parseStrBody (escStr s ++ quoteChar :: rest) = some (s, rest) := by
  have h := escStr_length s
  refine psbF_escStr s _ rest ?_
  simp only [List.length_append, List.length_cons]
  omega

theorem parseQuotedStr_dumpStr (s rest : List Char) :
    parseQuotedStr (dumpStr s ++ rest) = some (s, rest) := by
  have h1 : dumpStr s ++ rest = quoteChar :: (escStr s ++ quoteChar :: rest) := by
    simp [dumpStr, List.append_assoc]
  rw [h1, parseQuotedStr, if_pos rfl, parseStrBody_esc]

theorem digsRevLoop_val : ∀ (fuel n : Nat), n ≤ fuel → valRev (digsRevLoop fuel n) = n := by
  intro fuel
  induction fuel with
  | zero => intro n h; interval_cases n; rfl
  | succ f ih =>
    intro n h
    rw [digsRevLoop]
    by_cases h0 : n = 0
    · rw [if_pos h0, h0]; rfl
    · rw [if_neg h0]
      have hr := ih (n / 10) (by omega)
      simp only [valRev, List.foldr_cons] at hr ⊢
      rw [hr]
      omega

theorem digsRevLoop_lt : ∀ (fuel n : Nat), ∀ d ∈ digsRevLoop fuel n, d < 10 := by
  intro fuel
  induction fuel with
  | zero => intro n d hd; simp [digsRevLoop] at hd
  | succ f ih =>
    intro n d hd
    rw [digsRevLoop] at hd
    by_cases h0 : n = 0
    · rw [if_pos h0] at hd; simp at hd
    · rw [if_neg h0] at hd
      rcases List.mem_cons.mp hd with h | h
      · omega
      · exact ih _ d h

theorem digit_ch_toNat (d : Nat) (h : d < 10) : (ch (48 + d)).toNat = 48 + d := by
  interval_cases d <;> decide

theorem isDigit_ch (d : Nat) (h : d < 10) : isDigitChar (ch (48 + d)) = true := by
  interval_cases d <;> decide

theorem foldr_digits : ∀ (ds : List Nat), (∀ d ∈ ds, d < 10) →
    List.foldr (fun d a => a * 10 + ((ch (48 + d)).toNat - 48)) 0 ds
      = List.foldr (fun d a => a * 10 + d) 0 ds := by
  intro ds
  induction ds with
  | nil => intro h; rfl
  | cons d ds ih =>
    intro h
    simp only [List.foldr_cons]
    rw [ih (fun x hx => h x (List.mem_cons_of_mem d hx)),
      digit_ch_toNat d (h d (List.mem_cons_self d ds))]
    omega

theorem natRepr_digits (n : Nat) : (∀ c ∈ natRepr n, isDigitChar c = true) ∧ natRepr n ≠ []
    ∧ digitsVal (natRepr n) = n := by
  by_cases h0 : n = 0
  · subst h0
    refine ⟨?_, by decide, by decide⟩
    intro c hc
    rw [show natRepr 0 = [ch 48] from rfl, List.mem_singleton] at hc
    subst hc; decide
  · rw [natRepr, if_neg h0]
    have hd := digsRevLoop_lt n n
    refine ⟨?_, ?_, ?_⟩
    · intro c hc
      rw [List.mem_map] at hc
      obtain ⟨d, hdm, rfl⟩ := hc
      exact isDigit_ch d (hd d (List.mem_reverse.mp hdm))
    · obtain ⟨f, rfl⟩ : ∃ f, n = f + 1 := ⟨n - 1, by omega⟩
      rw [digsRevLoop, if_neg h0]
      simp
    · rw [digitsVal, List.foldl_map, List.foldl_reverse]
      rw [foldr_digits _ hd]
      exact digsRevLoop_val n n le_rfl

theorem takeDigits_all : ∀ (ds t : List Char), (∀ c ∈ ds, isDigitChar c = true) →
    headNotDigit t → takeDigits (ds ++ t) = (ds, t) := by
  intro ds
  induction ds with
  | nil =>
    intro t _ ht
    cases t with
    | nil => rfl
    | cons c r =>
      have hc : isDigitChar c = false := ht c rfl
      rw [List.nil_append, takeDigits, if_neg (by simp [hc])]
  | cons d ds ih =>
    intro t h ht
    rw [List.cons_append]
    simp only [takeDigits, if_pos (h d (List.mem_cons_self d ds)),
      ih t (fun c hc => h c (List.mem_cons_of_mem d hc)) ht]

theorem parseIntTok_intRepr (n : Int) (t : List Char) (ht : headNotDigit t) :
    parseIntTok (intRepr n ++ t) = some (n, t) := by
  obtain ⟨hdig, hne, hval⟩ := natRepr_digits n.natAbs
  obtain ⟨c, cs, hcs⟩ : ∃ c cs, natRepr n.natAbs = c :: cs := by
    cases hh : natRepr n.natAbs with
    | nil => exact absurd hh hne
    | cons c cs => exact ⟨c, cs, rfl⟩
  have hcdig : isDigitChar c = true := hdig c (hcs ▸ List.mem_cons_self c cs)
  have hcnm : ¬ c = minusChar := by
    intro hh; rw [hh] at hcdig; exact absurd hcdig (by decide)
  by_cases hneg : n < 0
  · rw [intRepr, if_pos hneg, List.cons_append, parseIntTok]
    rw [if_pos rfl]
    simp only [takeDigits_all (natRepr n.natAbs) t hdig ht, if_neg hne, hval]
    have hn : -(n.natAbs : Int) = n := by omega
    rw [hn]
  · rw [intRepr, if_neg hneg, hcs, List.cons_append, parseIntTok, if_neg hcnm]
    rw [← List.cons_append, ← hcs]
    simp only [takeDigits_all (natRepr n.natAbs) t hdig ht, if_neg hne, hval]
    have hn : ((n.natAbs : Int)) = n := by omega
    rw [hn]

theorem parseStrItemsNE_dump : ∀ (items : List (List Char)) (fuel : Nat) (t : List Char),
    items.length ≤ fuel → items ≠ [] →
    parseStrItemsNE fuel (joinWith [commaChar] (items.map dumpStr) ++ rbraChar :: t)
      = some (items, t) := by
  intro items
  induction items with
  | nil => intro fuel t _ hne; exact absurd rfl hne
  | cons x xs ih =>
    intro fuel t hf _
    obtain ⟨f, rfl⟩ : ∃ f, fuel = f + 1 :=
      ⟨fuel - 1, by simp only [List.length_cons] at hf; omega⟩
    cases xs with
    | nil =>
      have h1 : joinWith [commaChar] ([x].map dumpStr) ++ rbraChar :: t
          = dumpStr x ++ rbraChar :: t := by
        simp [joinWith]
      rw [h1, parseStrItemsNE, parseQuotedStr_dumpStr x (rbraChar :: t)]
      dsimp only
      rw [if_neg (by decide : ¬ rbraChar = commaChar), if_pos rfl]
    | cons y ys =>
      have h1 : joinWith [commaChar] ((x :: y :: ys).map dumpStr) ++ rbraChar :: t
          = dumpStr x ++ commaChar ::
              (joinWith [commaChar] ((y :: ys).map dumpStr) ++ rbraChar :: t) := by
        simp [joinWith, List.append_assoc]
      rw [h1, parseStrItemsNE, parseQuotedStr_dumpStr x _]
      dsimp only
      rw [if_pos rfl,
        ih f t (by simp only [List.length_cons] at hf ⊢; omega) (by simp)]

theorem parseVal_dump : ∀ (v : JValue) (fuel : Nat) (t : List Char),
    valNeed v ≤ fuel → headNotDigit t →
    parseVal fuel (dumpVal v ++ t) = some (v, t) := by
  intro v fuel t hf ht
  match v with
  | JValue.s s =>
    have h1 : dumpVal (JValue.s s) ++ t = quoteChar :: (escStr s ++ quoteChar :: t) := by
      simp [dumpVal, dumpStr, List.append_assoc]
    rw [h1, parseVal, if_pos rfl, parseStrBody_esc]
  | JValue.i n =>
    obtain ⟨c, cs, hcs, hq, hl⟩ : ∃ c cs, intRepr n ++ t = c :: cs
        ∧ ¬ c = quoteChar ∧ ¬ c = lbraChar := by
      by_cases hneg : n < 0
      · exact ⟨minusChar, natRepr n.natAbs ++ t,
          by rw [intRepr, if_pos hneg, List.cons_append], by decide, by decide⟩
      · obtain ⟨hdig, hne, _⟩ := natRepr_digits n.natAbs
        obtain ⟨c, cs, hcs⟩ : ∃ c cs, natRepr n.natAbs = c :: cs := by
          cases hh : natRepr n.natAbs with
          | nil => exact absurd hh hne
          | cons c cs => exact ⟨c, cs, rfl⟩
        have hcdig : isDigitChar c = true := hdig c (hcs ▸ List.mem_cons_self c cs)
        refine ⟨c, cs ++ t, by rw [intRepr, if_neg hneg, hcs, List.cons_append], ?_, ?_⟩
        · intro hh; rw [hh] at hcdig; exact absurd hcdig (by decide)
        · intro hh; rw [hh] at hcdig; exact absurd hcdig (by decide)
    rw [show dumpVal (JValue.i n) ++ t = intRepr n ++ t from rfl, hcs, parseVal,
      if_neg hq, if_neg hl, ← hcs, parseIntTok_intRepr n t ht]
  | JValue.l items =>
    have h1 : dumpVal (JValue.l items) ++ t
        = lbraChar :: (joinWith [commaChar] (items.map dumpStr) ++ rbraChar :: t) := by
      simp [dumpVal, List.append_assoc]
    rw [h1, parseVal, if_neg (by decide : ¬ lbraChar = quoteChar), if_pos rfl]
    cases items with
    | nil =>
      rw [show joinWith [commaChar] (([] : List (List Char)).map dumpStr) ++ rbraChar :: t
          = rbraChar :: t from rfl, parseStrItems]
      rw [if_pos rfl]
      rfl
    | cons x xs =>
      have h2 : joinWith [commaChar] ((x :: xs).map dumpStr) ++ rbraChar :: t
          = quoteChar :: ((escStr x ++ [quoteChar]
              ++ (xs.map dumpStr).flatMap (fun y => commaChar :: y)) ++ rbraChar :: t) := by
        simp [joinWith, dumpStr, List.append_assoc]
      rw [h2, parseStrItems]
      rw [if_neg (by decide : ¬ quoteChar = rbraChar), ← h2,
        parseStrItemsNE_dump (x :: xs) fuel t
          (by simp only [valNeed] at hf; omega) (by simp)]

theorem headNotDigit_cons (c : Char) (t : List Char) (h : isDigitChar c = false) :
    headNotDigit (c :: t) := by
  intro x hx
  simp only [List.head?_cons, Option.some.injEq] at hx
  rw [← hx]; exact h

theorem parsePairsNE_dump : ∀ (r : Record) (fuel : Nat) (t : List Char),
    r ≠ [] → pairsNeed r ≤ fuel →
    parsePairsNE fuel (joinWith [commaChar] (r.map pairStr) ++ rcurChar :: t)
      = some (r, t) := by
  intro r
  induction r with
  | nil => intro fuel t hne _; exact absurd rfl hne
  | cons kv r ih =>
    intro fuel t _ hf
    obtain ⟨f, rfl⟩ : ∃ f, fuel = f + 1 :=
      ⟨fuel - 1, by simp only [pairsNeed] at hf; omega⟩
    obtain ⟨k, v⟩ := kv
    have hfv : valNeed v ≤ f := by
      simp only [pairsNeed] at hf; omega
    cases r with
    | nil =>
      have h1 : joinWith [commaChar] ([((k, v) : List Char × JValue)].map pairStr)
            ++ rcurChar :: t
          = dumpStr k ++ (colonChar :: (dumpVal v ++ rcurChar :: t)) := by
        simp [joinWith, pairStr, List.append_assoc]
      rw [h1, parsePairsNE, parseQuotedStr_dumpStr k _]
      dsimp only
      rw [if_pos rfl,
        parseVal_dump v f (rcurChar :: t) hfv (headNotDigit_cons _ _ (by decide))]
      dsimp only
      rw [if_neg (by decide : ¬ rcurChar = commaChar), if_pos rfl]
    | cons kv2 r2 =>
      have h1 : joinWith [commaChar] ((((k, v) : List Char × JValue) :: kv2 :: r2).map pairStr)
            ++ rcurChar :: t
          = dumpStr k ++ (colonChar :: (dumpVal v ++ commaChar ::
              (joinWith [commaChar] ((kv2 :: r2).map pairStr) ++ rcurChar :: t))) := by
        simp [joinWith, pairStr, List.append_assoc]
      rw [h1, parsePairsNE, parseQuotedStr_dumpStr k _]
      dsimp only
      rw [if_pos rfl,
        parseVal_dump v f _ hfv (headNotDigit_cons _ _ (by decide))]
      dsimp only
      rw [if_pos rfl,
        ih f t (by simp) (by simp only [pairsNeed] at hf ⊢; omega)]

theorem parseRecord_dump (r : Record) (fuel : Nat) (t : List Char)
    (hf : pairsNeed r ≤ fuel) :
    parseRecord fuel (dumpsRec r ++ t) = some (r, t) := by
  cases r with
  | nil =>
    rw [show dumpsRec ([] : Record) ++ t = lcurChar :: rcurChar :: t from rfl, parseRecord]
    rw [if_pos rfl, if_pos rfl]
  | cons kv r2 =>
    obtain ⟨k, v⟩ := kv
    have h1 : dumpsRec (((k, v) : List Char × JValue) :: r2) ++ t
        = lcurChar :: (joinWith [commaChar]
            ((((k, v) : List Char × JValue) :: r2).map pairStr) ++ rcurChar :: t) := by
      simp [dumpsRec, List.append_assoc]
    have h2 : joinWith [commaChar] ((((k, v) : List Char × JValue) :: r2).map pairStr)
          ++ rcurChar :: t
        = quoteChar :: ((escStr k ++ [quoteChar]) ++ (colonChar :: dumpVal v
            ++ (r2.map pairStr).flatMap (fun y => commaChar :: y)) ++ rcurChar :: t) := by
      simp [joinWith, pairStr, dumpStr, List.append_assoc]
    rw [h1, parseRecord.eq_def]
    dsimp only
    rw [if_pos rfl, h2]
    dsimp only
    rw [if_neg (by decide : ¬ quoteChar = rcurChar), ← h2,
      parsePairsNE_dump _ fuel t (by simp) hf]

theorem parseRecsNE_dump : ∀ (rs : List Record) (fuel : Nat) (t : List Char),
    rs ≠ [] → recsNeed rs ≤ fuel →
    parseRecsNE fuel (joinWith [commaChar] (rs.map dumpsRec) ++ rbraChar :: t)
      = some (rs, t) := by
  intro rs
  induction rs with
  | nil => intro fuel t hne _; exact absurd rfl hne
  | cons r rs ih =>
    intro fuel t _ hf
    obtain ⟨f, rfl⟩ : ∃ f, fuel = f + 1 :=
      ⟨fuel - 1, by simp only [recsNeed] at hf; omega⟩
    have hfr : pairsNeed r ≤ f := by simp only [recsNeed] at hf; omega
    cases rs with
    | nil =>
      have h1 : joinWith [commaChar] ([r].map dumpsRec) ++ rbraChar :: t
          = dumpsRec r ++ rbraChar :: t := by simp [joinWith]
      rw [h1, parseRecsNE, parseRecord_dump r f (rbraChar :: t) hfr]
      dsimp only
      rw [if_neg (by decide : ¬ rbraChar = commaChar), if_pos rfl]
    | cons r2 rs2 =>
      have h1 : joinWith [commaChar] ((r :: r2 :: rs2).map dumpsRec) ++ rbraChar :: t
          = dumpsRec r ++ (commaChar ::
              (joinWith [commaChar] ((r2 :: rs2).map dumpsRec) ++ rbraChar :: t)) := by
        simp [joinWith, List.append_assoc]
      rw [h1, parseRecsNE, parseRecord_dump r f _ hfr]
      dsimp only
      rw [if_pos rfl, ih f t (by simp) (by simp only [recsNeed] at hf ⊢; omega)]

theorem dumpStr_len (s : List Char) : 2 ≤ (dumpStr s).length := by
  simp [dumpStr]

theorem intRepr_len (n : Int) : 1 ≤ (intRepr n).length := by
  obtain ⟨_, hne, _⟩ := natRepr_digits n.natAbs
  rw [intRepr]
  by_cases hneg : n < 0
  · rw [if_pos hneg]; simp
  · rw [if_neg hneg]; exact List.length_pos.mpr hne

theorem strs_flat_len (xs : List (List Char)) :
    xs.length ≤ ((xs.map dumpStr).flatMap (fun y => commaChar :: y)).length := by
  induction xs with
  | nil => simp
  | cons x xs ih =>
    have h := dumpStr_len x
    simp only [List.map_cons, List.flatMap_cons, List.length_append, List.length_cons]
    omega

theorem dumpVal_need (v : JValue) : valNeed v ≤ (dumpVal v).length := by
  match v with
  | JValue.s s =>
    have := dumpStr_len s
    simp only [valNeed, dumpVal]
    omega
  | JValue.i n =>
    have := intRepr_len n
    simp only [valNeed, dumpVal]
    omega
  | JValue.l items =>
    simp only [valNeed, dumpVal, List.length_cons, List.length_append]
    cases items with
    | nil => simp
    | cons x xs =>
      have h1 := dumpStr_len x
      have h2 := strs_flat_len xs
      simp only [joinWith, List.map_cons, List.length_cons, List.length_append,
        List.singleton_append]
      omega

theorem pairs_flat_len (r : Record) :
    pairsNeed r ≤ 1 + ((r.map pairStr).flatMap (fun y => commaChar :: y)).length := by
  induction r with
  | nil => simp [pairsNeed]
  | cons kv rest ih =>
    have h1 := dumpVal_need kv.2
    have h2 := dumpStr_len kv.1
    simp only [pairsNeed, List.map_cons, List.flatMap_cons, List.length_append,
      List.length_cons, pairStr] at *
    omega

theorem pairsNeed_join (r : Record) :
    pairsNeed r ≤ 1 + (joinWith [commaChar] (r.map pairStr)).length := by
  cases r with
  | nil => simp [pairsNeed, joinWith]
  | cons kv rest =>
    have h1 := dumpVal_need kv.2
    have h2 := dumpStr_len kv.1
    have h3 := pairs_flat_len rest
    simp only [pairsNeed, joinWith, List.map_cons, List.length_append, List.length_cons,
      List.singleton_append, pairStr] at *
    omega

theorem dumpsRec_len (r : Record) : pairsNeed r + 1 ≤ (dumpsRec r).length := by
  have h := pairsNeed_join r
  simp only [dumpsRec, List.length_cons, List.length_append]
  omega

theorem recs_flat_len (rs : List Record) :
    recsNeed rs ≤ 1 + ((rs.map dumpsRec).flatMap (fun y => commaChar :: y)).length := by
  induction rs with
  | nil => simp [recsNeed]
  | cons r rest ih =>
    have h1 := dumpsRec_len r
    simp only [recsNeed, List.map_cons, List.flatMap_cons, List.length_append,
      List.length_cons] at *
    omega

theorem recsNeed_join (rs : List Record) :
    recsNeed rs ≤ 1 + (joinWith [commaChar] (rs.map dumpsRec)).length := by
  cases rs with
  | nil => simp [recsNeed, joinWith]
  | cons r rest =>
    have h1 := dumpsRec_len r
    have h2 := recs_flat_len rest
    simp only [recsNeed, joinWith, List.map_cons, List.length_append, List.length_cons,
      List.singleton_append] at *
    omega

/-- Claim C9 (amended): for every record sequence whose first record is
non-empty (truthy), print_json writes exactly an opening bracket, the compact
JSON objects of the records separated by single commas, and a closing bracket
(so the empty sequence gives the empty array), together with the record
count; parsing that output back yields exactly the original sequence of
column-to-value mappings; and the JSON output path of database_search ignores
the table headers and widths entirely. -/
theorem C9_amended_json_roundtrip (rs : List Record) (headers : List (List Char × Nat))
    (hh : ∀ r, rs.head? = some r → r ≠ []) :
    print_json rs
      = (lbraChar :: (joinWith [commaChar] (rs.map dumpsRec) ++ [rbraChar]), rs.length)
    ∧ parseJson (print_json rs).1 = some rs
    ∧ search_output_json headers rs = print_json rs := by
  cases rs with
  | nil => exact ⟨rfl, rfl, rfl⟩
  | cons r rest =>
    have hr : r ≠ [] := hh r rfl
    have hshape : print_json (r :: rest)
        = (lbraChar :: (joinWith [commaChar] ((r :: rest).map dumpsRec) ++ [rbraChar]),
            (r :: rest).length) := by
      simp only [print_json, if_neg hr]
      simp [joinWith, List.flatMap_map, List.append_assoc]
    refine ⟨hshape, ?_, rfl⟩
    rw [hshape]
    have h2 : joinWith [commaChar] ((r :: rest).map dumpsRec) ++ [rbraChar]
        = lcurChar :: ((joinWith [commaChar] (r.map pairStr) ++ [rcurChar])
            ++ ((rest.map dumpsRec).flatMap (fun y => commaChar :: y) ++ [rbraChar])) := by
      simp [joinWith, dumpsRec, List.append_assoc]
    rw [parseJson.eq_def]
    dsimp only
    rw [if_pos rfl, h2]
    dsimp only
    rw [if_neg (by decide : ¬ lcurChar = rbraChar), ← h2]
    have hfuel : recsNeed (r :: rest)
        ≤ (lbraChar :: (joinWith [commaChar]
            (List.map dumpsRec (r :: rest)) ++ [rbraChar])).length := by
      have h3 := recsNeed_join (r :: rest)
      simp only [List.length_cons, List.length_append] at h3 ⊢
      omega
    rw [show joinWith [commaChar] (List.map dumpsRec (r :: rest)) ++ [rbraChar]
        = joinWith [commaChar] (List.map dumpsRec (r :: rest)) ++ rbraChar :: [] from rfl,
      parseRecsNE_dump (r :: rest) _ [] (by simp) hfuel]

/-- Claim C9 counterexample: the walrus-operator truthiness test in print_json
(console/database.py line 195) consumes a falsy first record without writing
it: a single empty record renders as the empty array (parsing back to no
records at all), and an empty first record followed by a real one renders as
a bracket immediately followed by a comma, which is not parseable JSON. -/
theorem C9_walrus_drops_first_counterexample :
    print_json [([] : Record)] = ([lbraChar, rbraChar], 0)
    ∧ parseJson (print_json [([] : Record)]).1 = some []
    ∧ ¬ parseJson (print_json [([] : Record)]).1 = some [([] : Record)]
    ∧ (print_json [([] : Record), [([ch 97], JValue.i 1)]]).1
      = lbraChar :: commaChar :: (dumpsRec [([ch 97], JValue.i 1)] ++ [rbraChar])
    ∧ parseJson (print_json [([] : Record), [([ch 97], JValue.i 1)]]).1 = none := by
  refine ⟨rfl, rfl, by decide, rfl, rfl⟩

/-- Claim C9 witness: a one-record sequence with an id field is rendered to
the bracketed compact object form with count one, parses back to itself, and
the json output path is width-independent on it. -/
theorem C9_amended_json_roundtrip_witness :
    print_json [[(([ch 105, ch 100] : List Char), JValue.i 7)]]
      = (lbraChar :: (joinWith [commaChar]
          ([[(([ch 105, ch 100] : List Char), JValue.i 7)]].map dumpsRec) ++ [rbraChar]), 1)
    ∧ parseJson (print_json [[(([ch 105, ch 100] : List Char), JValue.i 7)]]).1
      = some [[(([ch 105, ch 100] : List Char), JValue.i 7)]]
    ∧ search_output_json [] [[(([ch 105, ch 100] : List Char), JValue.i 7)]]
      = print_json [[(([ch 105, ch 100] : List Char), JValue.i 7)]] :=
  C9_amended_json_roundtrip [[(([ch 105, ch 100] : List Char), JValue.i 7)]] []
    (by intro r hr
        simp only [List.head?_cons, Option.some.injEq] at hr
        subst hr
        decide)

end Fal
